import Mathlib

/-!
# Verification of the `seed` scaffolding engine

A shallow embedding of the scaffolding core of the `seed` CLI
(`scaffold.go` and `skills.go`) together with proofs about it.

The filesystem is modelled as an association list from paths (lists of
name components) to nodes (regular files with string content, or
directories).  Every filesystem-mutating Go function of the scaffolder is
translated into a pure Lean function threading this state, returning the
new state together with an optional error message (mirroring Go's
`error` return).  The parsed template set held by the Go `Scaffolder`
receiver is modelled as an explicit `render` function parameter.
-/

set_option autoImplicit false
set_option maxRecDepth 4000

deriving instance DecidableEq for Except

namespace Seed

/-- A filesystem path, as a list of name components relative to the model
root.  `filepath.Join dir name` becomes `dir ++ [name]` and
`filepath.Dir p` becomes `p.dropLast`. -/
abbrev Path := List String

/-- A filesystem node: a regular file with byte content (modelled as a
string) or a directory. -/
inductive Node where
  | file (content : String) : Node
  | dir : Node
deriving DecidableEq, Repr

/-- The filesystem state: a finite map from paths to nodes, as an
association list (keys kept unique by `FS.insert`). -/
structure FS where
  entries : List (Path × Node)
deriving DecidableEq, Repr

def pathStr (p : Path) : String := String.intercalate "/" p

/-- Look a path up in the filesystem. -/
def FS.lookup (fs : FS) (p : Path) : Option Node :=
  (fs.entries.find? fun kv => decide (kv.1 = p)).map Prod.snd

/-- Whether an optional node is a regular file. -/
def isFileNode : Option Node → Bool
  | some (.file _) => true
  | _ => false

/-- Whether some strict ancestor of `p` is a regular file.  On a real
filesystem, `stat` on such a path fails with `ENOTDIR` instead of
`ENOENT`; Go's `os.IsNotExist` is false for that error. -/
def FS.hasFileAncestor (fs : FS) (p : Path) : Bool :=
  (List.range p.length).any fun i => isFileNode (fs.lookup (p.take i))

/-- `os.Stat`: an `ENOTDIR`-style error when a strict ancestor is a
regular file, otherwise the node found at the path (`none` = `ENOENT`,
for which `os.IsNotExist` returns true). -/
def FS.stat (fs : FS) (p : Path) : Except String (Option Node) :=
  if fs.hasFileAncestor p then .error ("stat " ++ pathStr p ++ ": not a directory")
  else .ok (fs.lookup p)

/-- Insert (or overwrite) a node at a path, keeping keys unique. -/
def FS.insert (fs : FS) (p : Path) (n : Node) : FS :=
  ⟨(p, n) :: fs.entries.filter fun kv => decide (kv.1 ≠ p)⟩

/-- The number of immediate children of a directory (what
`len(os.ReadDir(dir))` observes). -/
def FS.childCount (fs : FS) (p : Path) : Nat :=
  (fs.entries.filter fun kv => decide (kv.1.length = p.length + 1) && p.isPrefixOf kv.1).length

/-- `os.Mkdir`: fails if the path already exists or its parent is not an
existing directory. -/
def FS.mkdir (fs : FS) (p : Path) : Except String FS :=
  if (fs.lookup p).isSome then .error ("mkdir " ++ pathStr p ++ ": file exists")
  else
    match fs.lookup p.dropLast with
    | some .dir => .ok (fs.insert p .dir)
    | some (.file _) => .error ("mkdir " ++ pathStr p ++ ": not a directory")
    | none => .error ("mkdir " ++ pathStr p ++ ": no such file or directory")

/-- `os.Create` of a fresh or existing file followed by writing `content`
(also the model of `os.WriteFile`): requires the parent to be an existing
directory and the target not to be a directory; creates or truncates. -/
def FS.writeFile (fs : FS) (p : Path) (content : String) : Except String FS :=
  if fs.hasFileAncestor p then .error ("open " ++ pathStr p ++ ": not a directory")
  else
    match fs.lookup p.dropLast, fs.lookup p with
    | some .dir, some .dir => .error ("open " ++ pathStr p ++ ": is a directory")
    | some .dir, _ => .ok (fs.insert p (.file content))
    | _, _ => .error ("open " ++ pathStr p ++ ": no such file or directory")

/-- Helper for `FS.mkdirAll`: walks the remaining components, creating
missing directories; like Go's `os.MkdirAll` it stops (keeping the
directories already created) when a component exists as a regular
file. -/
def mkdirAllAux (fs : FS) (built : Path) : List String → FS × Option String
  | [] => (fs, none)
  | c :: rest =>
    let q := built ++ [c]
    match fs.lookup q with
    | some .dir => mkdirAllAux fs q rest
    | some (.file _) => (fs, some ("mkdir " ++ pathStr q ++ ": not a directory"))
    | none => mkdirAllAux (fs.insert q .dir) q rest

/-- `os.MkdirAll`. -/
def FS.mkdirAll (fs : FS) (p : Path) : FS × Option String :=
  mkdirAllAux fs [] p

/-- Sequencing of filesystem steps that each return a state and an
optional error: stop at the first error (Go's early `return err`). -/
def andThen (r : FS × Option String) (k : FS → FS × Option String) : FS × Option String :=
  match r with
  | (fs, none) => k fs
  | (fs, some e) => (fs, some e)

/-! ## Template data and the devcontainer descriptor (`scaffold.go`) -/

/-- `TemplateData`: all variables available to templates (`scaffold.go`). -/
structure TemplateData where
  ProjectName : String
  Description : String
  IncludeDevContainer : Bool
  DevContainerImage : String
  AIChatContinuity : Bool
  VSCodeExtensions : List String
  License : String
  Year : Int
deriving DecidableEq, Repr

/-- One entry of `knownAITools`: an AI coding tool's label and its state
directory under `$HOME`. -/
structure AITool where
  Label : String
  StateDir : String
deriving DecidableEq, Repr

/-- `knownAITools`: the fixed, ordered tool registry. -/
def knownAITools : List AITool :=
  [⟨"Claude Code", ".claude"⟩, ⟨"Codex", ".codex"⟩]

/-- The `"build"` field of `devcontainer.json`. -/
structure DevContainerBuild where
  Dockerfile : String
deriving DecidableEq, Repr

/-- `DevContainer`: the typed `devcontainer.json` value.  Go maps become
association lists in insertion order (`encoding/json` sorts map keys when
serializing); the `Customizations` pointer field becomes an `Option`
carrying the VS Code extension list it wraps
(`DevContainerCustomizations.VSCode.Extensions`). -/
structure DevContainer where
  Name : String
  Build : DevContainerBuild
  Features : List String
  Customizations : Option (List String)
  Mounts : List String
  ContainerEnv : List (String × String)
  PostCreateCommand : String
deriving DecidableEq, Repr

/-- The content of `.vscode/extensions.json` (`scaffold.go`). -/
structure VSCodeWorkspaceExtensions where
  Recommendations : List String
deriving DecidableEq, Repr

/-! ### A small JSON value type, for `encoding/json.MarshalIndent`

`null` is included only to make "field omitted" and "field present with a
null value" distinguishable statements; the scaffolder's `omitempty`
handling never produces it. -/

inductive Json where
  | null : Json
  | str (s : String) : Json
  | arr (xs : List Json) : Json
  | obj (fields : List (String × Json)) : Json

/-- The top-level field names of a serialized JSON object. -/
def Json.topKeys : Json → List String
  | .obj fields => fields.map Prod.fst
  | _ => []

/-- The value of a top-level field of a serialized JSON object, `none`
when the field is absent from the output. -/
def Json.field (j : Json) (k : String) : Option Json :=
  match j with
  | .obj fields => (fields.find? fun kv => decide (kv.1 = k)).map Prod.snd
  | _ => none

def jsonEscapeChar (c : Char) : String :=
  if c = '"' then "\\\""
  else if c = '\\' then "\\\\"
  else if c = '\n' then "\\n"
  else if c = '\t' then "\\t"
  else String.singleton c

/-- JSON string quoting (the HTML escaping Go applies to `<`, `>`, `&` is
not modelled; no claim depends on those bytes). -/
def jsonQuote (s : String) : String :=
  "\"" ++ String.join (s.data.map jsonEscapeChar) ++ "\""

def jsonIndent (d : Nat) : String := String.join (List.replicate d "  ")

mutual

/-- Rendering a JSON value as `encoding/json.MarshalIndent(v, "", "  ")`
does, at nesting depth `d`. -/
def Json.render : Json → Nat → String
  | .null, _ => "null"
  | .str s, _ => jsonQuote s
  | .arr [], _ => "[]"
  | .arr (x :: xs), d =>
      "[\n" ++ Json.renderItems (x :: xs) (d + 1) ++ "\n" ++ jsonIndent d ++ "]"
  | .obj [], _ => "\x7b\x7d"
  | .obj (f :: fs), d =>
      "\x7b\n" ++ Json.renderFields (f :: fs) (d + 1) ++ "\n" ++ jsonIndent d ++ "\x7d"

def Json.renderItems : List Json → Nat → String
  | [], _ => ""
  | [x], d => jsonIndent d ++ Json.render x d
  | x :: y :: xs, d =>
      jsonIndent d ++ Json.render x d ++ ",\n" ++ Json.renderItems (y :: xs) d

def Json.renderFields : List (String × Json) → Nat → String
  | [], _ => ""
  | [(k, v)], d => jsonIndent d ++ jsonQuote k ++ ": " ++ Json.render v d
  | (k, v) :: f :: fs, d =>
      jsonIndent d ++ jsonQuote k ++ ": " ++ Json.render v d ++ ",\n" ++
        Json.renderFields (f :: fs) d

end

/-- Insertion into a key-sorted association list (for Go's sorted map-key
serialization). -/
def insertPairSorted (x : String × Json) : List (String × Json) → List (String × Json)
  | [] => [x]
  | y :: ys => if x.1 ≤ y.1 then x :: y :: ys else y :: insertPairSorted x ys

def sortPairsByKey (l : List (String × Json)) : List (String × Json) :=
  l.foldr insertPairSorted []

/-- Marshalling of `DevContainer`, field for field in struct order with
`encoding/json`'s `omitempty` semantics: `features`, `mounts`,
`containerEnv` are omitted when empty, `customizations` when the pointer
is nil, `postCreateCommand` when the empty string; map keys are sorted. -/
def DevContainer.toJson (dc : DevContainer) : Json :=
  .obj
    ([("name", .str dc.Name),
      ("build", .obj [("dockerfile", .str dc.Build.Dockerfile)])]
     ++ (if dc.Features.isEmpty then []
         else [("features", .obj (sortPairsByKey (dc.Features.map fun f => (f, .obj []))))])
     ++ (match dc.Customizations with
         | none => []
         | some exts =>
             [("customizations",
               .obj [("vscode", .obj [("extensions", .arr (exts.map .str))])])])
     ++ (if dc.Mounts.isEmpty then [] else [("mounts", .arr (dc.Mounts.map .str))])
     ++ (if dc.ContainerEnv.isEmpty then []
         else [("containerEnv",
                .obj (sortPairsByKey (dc.ContainerEnv.map fun kv => (kv.1, .str kv.2))))])
     ++ (if dc.PostCreateCommand = "" then []
         else [("postCreateCommand", .str dc.PostCreateCommand)]))

/-- Marshalling of `VSCodeWorkspaceExtensions` (no `omitempty` on its
single field). -/
def VSCodeWorkspaceExtensions.toJson (v : VSCodeWorkspaceExtensions) : Json :=
  .obj [("recommendations", .arr (v.Recommendations.map .str))]

/-! ## The scaffolding operations (`scaffold.go`) -/

/-- `strings.TrimSuffix(templateName, ".tmpl")`, on the character-list
view of the string (`.tmpl` is 5 ASCII characters, hence 5 bytes). -/
def stripTmpl (s : String) : String :=
  if ".tmpl".data.isSuffixOf s.data then ⟨s.data.take (s.data.length - 5)⟩ else s

/-- The always-rendered core templates (`Scaffold`, step 2). -/
def coreTemplates : List String :=
  ["README.md.tmpl", "AGENTS.md.tmpl", "DECISIONS.md.tmpl", "TODO.md.tmpl",
   "LEARNINGS.md.tmpl", ".gitignore.tmpl", ".editorconfig.tmpl"]

/-- `prepareDirectory`: validate and prepare the target directory. -/
def prepareDirectory (fs : FS) (targetDir : Path) (allowNonEmpty : Bool) :
    FS × Option String :=
  match fs.stat targetDir with
  | .ok none =>
    let parentDir := targetDir.dropLast
    match fs.stat parentDir with
    | .ok none =>
        (fs, some ("parent directory " ++ pathStr parentDir ++
          " does not exist — please create it first"))
    | _ =>
        match fs.mkdir targetDir with
        | .ok fs' => (fs', none)
        | .error e =>
            (fs, some ("failed to create directory " ++ pathStr targetDir ++ ": " ++ e))
  | .error e => (fs, some ("failed to check directory " ++ pathStr targetDir ++ ": " ++ e))
  | .ok (some (.file _)) =>
      (fs, some (pathStr targetDir ++ " exists but is not a directory"))
  | .ok (some .dir) =>
      if 0 < fs.childCount targetDir ∧ allowNonEmpty = false then
        (fs, some ("directory " ++ pathStr targetDir ++ " is not empty (contains " ++
          toString (fs.childCount targetDir) ++ " items)"))
      else (fs, none)

/-- `renderTemplate`: render one template into `targetDir`, stripping the
`.tmpl` suffix for the output name.  The `render` parameter stands for
the `Scaffolder` receiver's parsed template set; execution of a
well-formed fixed template cannot fail at runtime, so the Go
`ExecuteTemplate` error branch has no counterpart here. -/
def renderTemplate (render : String → TemplateData → String) (fs : FS)
    (targetDir : Path) (templateName : String) (data : TemplateData) :
    FS × Option String :=
  let outputPath := targetDir ++ [stripTmpl templateName]
  match fs.writeFile outputPath (render templateName data) with
  | .ok fs' => (fs', none)
  | .error e => (fs, some ("failed to create " ++ pathStr outputPath ++ ": " ++ e))

/-- The loop over `coreTemplates` in `Scaffold`, failing fast. -/
def renderTemplates (render : String → TemplateData → String)
    (targetDir : Path) (data : TemplateData) :
    FS → List String → FS × Option String
  | fs, [] => (fs, none)
  | fs, t :: ts =>
    match renderTemplate render fs targetDir t data with
    | (fs', none) => renderTemplates render targetDir data fs' ts
    | (fs', some e) => (fs', some e)

/-- `scaffoldLicense`: render the selected license template as `LICENSE`;
no-op for `"none"`, the empty string, or any other selector. -/
def scaffoldLicense (render : String → TemplateData → String) (fs : FS)
    (targetDir : Path) (data : TemplateData) : FS × Option String :=
  let write := fun (tmplName : String) =>
    match fs.writeFile (targetDir ++ ["LICENSE"]) (render tmplName data) with
    | .ok fs' => (fs', none)
    | .error e => (fs, some ("failed to create LICENSE: " ++ e))
  match data.License with
  | "MIT" => write "LICENSE-MIT.tmpl"
  | "Apache-2.0" => write "LICENSE-Apache.tmpl"
  | _ => (fs, none)

/-- `writeVSCodeExtensions`: write `.vscode/extensions.json` with the
workspace extension recommendations. -/
def writeVSCodeExtensions (fs : FS) (targetDir : Path) (extensions : List String) :
    FS × Option String :=
  let vscodDir := targetDir ++ [".vscode"]
  match fs.mkdirAll vscodDir with
  | (fs', some e) => (fs', some ("failed to create .vscode directory: " ++ e))
  | (fs', none) =>
    let content : VSCodeWorkspaceExtensions := ⟨extensions⟩
    match fs'.writeFile (vscodDir ++ ["extensions.json"]) (content.toJson.render 0 ++ "\n") with
    | .ok fs'' => (fs'', none)
    | .error e => (fs', some ("failed to write .vscode/extensions.json: " ++ e))

/-- The generated extensions-cache volume name:
`strings.ToLower(strings.ReplaceAll(name, " ", "-")) + "-vscode-extensions"`. -/
def extensionsVolume (projectName : String) : String :=
  (projectName.replace " " "-").toLower ++ "-vscode-extensions"

/-- The cache-symlink-and-initialize command (`extensionsSymlink` in
`scaffoldDevContainer`): a constant string. -/
def extensionsSymlink : String :=
  "ln -sfn /home/vscode/.vscode-extensions-cache /home/vscode/.vscode-server/extensions" ++
  "; [ -f /home/vscode/.vscode-extensions-cache/extensions.json ] || echo \x27[]\x27 > /home/vscode/.vscode-extensions-cache/extensions.json"

/-- The extensions-cache volume mount specification, always the first
element of `Mounts`. -/
def extensionsCacheMount (projectName : String) : String :=
  "source=" ++ extensionsVolume projectName ++
  ",target=/home/vscode/.vscode-extensions-cache,type=volume"

/-- The bind-mount specification appended for one registered tool when
chat continuity is enabled. -/
def toolMountSpec (t : AITool) : String :=
  "source=$\x7blocalEnv:HOME\x7d/" ++ t.StateDir ++ ",target=/home/vscode/" ++
  t.StateDir ++ ",type=bind,consistency=cached"

/-- The existence-guarded block `generateSetupScript` emits for one tool
registry entry. -/
def toolBlock (t : AITool) : String :=
  "# " ++ t.Label ++ " (auto-detected)\n" ++
  "if [ -d \"$HOME/" ++ t.StateDir ++ "\" ]; then\n" ++
  "  mkdir -p \"$HOME/" ++ t.StateDir ++ "/projects/$HOST_KEY\"\n" ++
  "  ln -sfn \"$HOME/" ++ t.StateDir ++ "/projects/$HOST_KEY\" \"$HOME/" ++
  t.StateDir ++ "/projects/$CONTAINER_KEY\"\n" ++
  "fi\n\n"

/-- `generateSetupScript`: the `.devcontainer/setup.sh` text. -/
def generateSetupScript (symlinkCmd : String) : String :=
  "#!/bin/bash\n" ++
  "# Dev container setup — created by seed\n" ++
  "# Symlinks VS Code extensions cache and auto-detects AI coding tools,\n" ++
  "# symlinking host project state into the container so conversations persist.\n" ++
  "#\n" ++
  "# HOST_WORKSPACE is set via containerEnv in devcontainer.json\n" ++
  "# and resolved from $\x7blocalWorkspaceFolder\x7d at container creation time.\n\n" ++
  "# Symlink cached extensions into the path VS Code expects\n" ++
  symlinkCmd ++ "\n\n" ++
  "HOST_KEY=$(echo \"$HOST_WORKSPACE\" | tr \x27/\x27 \x27-\x27)\n" ++
  "CONTAINER_KEY=$(pwd | tr \x27/\x27 \x27-\x27)\n\n" ++
  String.join (knownAITools.map toolBlock)

/-- The `DevContainer` value `scaffoldDevContainer` constructs for a
given configuration, including the conditional chat-continuity
adjustments (tool bind mounts, `HOST_WORKSPACE` forward and the
post-create command switch) and the conditional `customizations`
block. -/
def devContainerFor (data : TemplateData) : DevContainer :=
  let base : DevContainer :=
    { Name := data.ProjectName ++ " (Dev Container)"
      Build := ⟨"Dockerfile"⟩
      Features := ["ghcr.io/devcontainers/features/github-cli:1"]
      Customizations :=
        if 0 < data.VSCodeExtensions.length then some data.VSCodeExtensions else none
      Mounts := [extensionsCacheMount data.ProjectName]
      ContainerEnv :=
        [("GH_TOKEN", "$\x7blocalEnv:GH_TOKEN\x7d"),
         ("GITHUB_TOKEN", "$\x7blocalEnv:GITHUB_TOKEN\x7d")]
      PostCreateCommand := extensionsSymlink }
  if data.AIChatContinuity then
    { base with
      Mounts := base.Mounts ++ knownAITools.map toolMountSpec
      ContainerEnv := base.ContainerEnv ++ [("HOST_WORKSPACE", "$\x7blocalWorkspaceFolder\x7d")]
      PostCreateCommand := "bash .devcontainer/setup.sh" }
  else base

/-- `scaffoldDevContainer`: create `.devcontainer/`, render the
Dockerfile, optionally write `setup.sh`, and write the marshalled
`devcontainer.json` with a trailing newline. -/
def scaffoldDevContainer (render : String → TemplateData → String) (fs : FS)
    (targetDir : Path) (data : TemplateData) : FS × Option String :=
  let dcDir := targetDir ++ [".devcontainer"]
  match fs.mkdirAll dcDir with
  | (fs', some e) => (fs', some ("failed to create .devcontainer directory: " ++ e))
  | (fs', none) =>
    andThen (renderTemplate render fs' dcDir "Dockerfile.tmpl" data) fun fs' =>
      let dc := devContainerFor data
      andThen
        (if data.AIChatContinuity then
          match fs'.writeFile (dcDir ++ ["setup.sh"]) (generateSetupScript extensionsSymlink) with
          | .ok fs'' => (fs'', none)
          | .error e => (fs', some ("failed to write setup.sh: " ++ e))
        else (fs', none)) fun fs' =>
        match fs'.writeFile (dcDir ++ ["devcontainer.json"]) (dc.toJson.render 0 ++ "\n") with
        | .ok fs'' => (fs'', none)
        | .error e => (fs', some ("failed to write devcontainer.json: " ++ e))

/-- `Scaffold`: the full pipeline.  `currentYear` stands for
`time.Now().Year()`; `allowNonEmpty` keeps Go's variadic shape, read as
`len(a) > 0 && a[0]`. -/
def Scaffold (render : String → TemplateData → String) (currentYear : Int)
    (fs : FS) (targetDir : Path) (data : TemplateData)
    (allowNonEmpty : List Bool) : FS × Option String :=
  let nonEmpty := match allowNonEmpty with | [] => false | b :: _ => b
  andThen (prepareDirectory fs targetDir nonEmpty) fun fs' =>
    let data := if data.Year = 0 then { data with Year := currentYear } else data
    andThen (renderTemplates render targetDir data fs' coreTemplates) fun fs' =>
      andThen (scaffoldLicense render fs' targetDir data) fun fs' =>
        andThen
          (if data.IncludeDevContainer then scaffoldDevContainer render fs' targetDir data
           else (fs', none)) fun fs' =>
          if data.IncludeDevContainer ∧ 0 < data.VSCodeExtensions.length then
            writeVSCodeExtensions fs' targetDir data.VSCodeExtensions
          else (fs', none)

/-- Modelled from the spec: the embedded template files under
`templates/*.tmpl` are not present in `src/`; only their names appear in
the code.  Per the spec, template execution is a pure function of the
template and the configuration, every template may reference only the
configuration fields, and the two license templates render license text
containing the project name and the configured year. -/
def seedRender : String → TemplateData → String
  | "LICENSE-MIT.tmpl", d =>
      "MIT License\n\nCopyright (c) " ++ toString d.Year ++ " " ++ d.ProjectName ++
      "\n\nPermission is hereby granted, free of charge, to any person obtaining a copy\nof this software and associated documentation files.\n"
  | "LICENSE-Apache.tmpl", d =>
      "Apache License\nVersion 2.0, January 2004\n\nCopyright " ++ toString d.Year ++
      " " ++ d.ProjectName ++ "\n\nLicensed under the Apache License, Version 2.0.\n"
  | "README.md.tmpl", d => "# " ++ d.ProjectName ++ "\n\n" ++ d.Description ++ "\n"
  | "Dockerfile.tmpl", d =>
      "FROM mcr.microsoft.com/devcontainers/" ++ d.DevContainerImage ++ "\n"
  | name, d => "<" ++ stripTmpl name ++ " stub for " ++ d.ProjectName ++ ">\n"

/-! ## The skill installer (`skills.go`) -/

/-- One entry of the embedded `skills/` directory listing: a name, the
`fs.DirEntry.IsDir` flag, and (for files) the embedded content.  The
installer is parameterized over this registry, so the theorems hold for
any build-time-fixed document set. -/
structure SkillEntry where
  name : String
  isDir : Bool
  content : String
deriving DecidableEq, Repr

/-- The report returned by `installSkillsWithReport`. -/
structure SkillsInstallReport where
  Skipped : List String
deriving DecidableEq, Repr

/-- Insertion sort on strings (`sort.Strings`). -/
def insertStr (x : String) : List String → List String
  | [] => [x]
  | y :: ys => if x ≤ y then x :: y :: ys else y :: insertStr x ys

def sortStrings (l : List String) : List String := l.foldr insertStr []

/-- The names of the non-directory entries of a registry, in registry
order. -/
def skillNames (docs : List SkillEntry) : List String :=
  (docs.filter fun d => !d.isDir).map SkillEntry.name

/-- The loop of `installSkillsWithReport`: skip directories, record
already-existing destination names as skipped, copy missing files
verbatim. -/
def installLoop (skillsDir : Path) : FS → List String → List SkillEntry →
    FS × List String × Option String
  | fs, skipped, [] => (fs, skipped, none)
  | fs, skipped, d :: ds =>
    if d.isDir then installLoop skillsDir fs skipped ds
    else
      let outputPath := skillsDir ++ [d.name]
      match fs.stat outputPath with
      | .ok (some _) => installLoop skillsDir fs (skipped ++ [d.name]) ds
      | _ =>
        match fs.writeFile outputPath d.content with
        | .ok fs' => installLoop skillsDir fs' skipped ds
        | .error e => (fs, skipped, some ("failed to write " ++ pathStr outputPath ++ ": " ++ e))

/-- `installSkillsWithReport`: validate the target, ensure
`targetDir/skills/` exists, copy each embedded document that is missing,
skip each that already exists, and return the sorted skipped-name
list. -/
def installSkillsWithReport (docs : List SkillEntry) (fs : FS) (targetDir : Path) :
    FS × SkillsInstallReport × Option String :=
  match fs.stat targetDir with
  | .error _ =>
      (fs, ⟨[]⟩, some ("target directory " ++ pathStr targetDir ++ " does not exist"))
  | .ok none =>
      (fs, ⟨[]⟩, some ("target directory " ++ pathStr targetDir ++ " does not exist"))
  | .ok (some (.file _)) => (fs, ⟨[]⟩, some (pathStr targetDir ++ " is not a directory"))
  | .ok (some .dir) =>
    let skillsDir := targetDir ++ ["skills"]
    match fs.mkdirAll skillsDir with
    | (fs', some e) => (fs', ⟨[]⟩, some ("failed to create skills directory: " ++ e))
    | (fs', none) =>
      match installLoop skillsDir fs' [] docs with
      | (fs'', skipped, none) => (fs'', ⟨sortStrings skipped⟩, none)
      | (fs'', skipped, some e) => (fs'', ⟨skipped⟩, some e)

/-- `InstallSkills`: the reportless wrapper. -/
def InstallSkills (docs : List SkillEntry) (fs : FS) (targetDir : Path) :
    FS × Option String :=
  let r := installSkillsWithReport docs fs targetDir
  (r.1, r.2.2)

/-- Substring containment, used for the spec's "message contains ..."
properties. -/
def strContains (s pat : String) : Prop := pat.data <:+: s.data

/-- Prefix containment ("begins with ..."). -/
def strStartsWith (s pat : String) : Prop := pat.data <+: s.data

instance (s pat : String) : Decidable (strContains s pat) := by
  unfold strContains; infer_instance

instance (s pat : String) : Decidable (strStartsWith s pat) := by
  unfold strStartsWith; infer_instance

/-- The file paths a `Scaffold` invocation may write (its only regular
file write targets; directories may additionally be created at the target
directory and at `.devcontainer/` and `.vscode/`). -/
def scaffoldFilePaths (dir : Path) : List Path :=
  [dir ++ ["README.md"], dir ++ ["AGENTS.md"], dir ++ ["DECISIONS.md"],
   dir ++ ["TODO.md"], dir ++ ["LEARNINGS.md"], dir ++ [".gitignore"],
   dir ++ [".editorconfig"], dir ++ ["LICENSE"],
   dir ++ [".devcontainer", "Dockerfile"], dir ++ [".devcontainer", "setup.sh"],
   dir ++ [".devcontainer", "devcontainer.json"], dir ++ [".vscode", "extensions.json"]]

/-- A minimal filesystem containing only the model root. -/
def rootFS : FS := ⟨[([], Node.dir)]⟩

/-- A sample embedded skill registry. -/
def skillsDocs : List SkillEntry :=
  [⟨"a.md", false, "A"⟩, ⟨"b.md", false, "B"⟩]

/-- A project tree whose `skills/a.md` was already edited by the user. -/
def skillsFS0 : FS :=
  ⟨[([], Node.dir), (["d"], Node.dir), (["d", "skills"], Node.dir),
    (["d", "skills", "a.md"], Node.file "edited")]⟩

/-- A sample configuration with the dev environment, chat continuity and
extensions enabled. -/
def demoData : TemplateData :=
  { ProjectName := "demo app", Description := "a demo", IncludeDevContainer := true,
    DevContainerImage := "go:2-1.25-trixie", AIChatContinuity := true,
    VSCodeExtensions := ["a.b", "c.d"], License := "MIT", Year := 2024 }

/-- A sample configuration with everything optional disabled. -/
def plainData : TemplateData :=
  { ProjectName := "demo", Description := "x", IncludeDevContainer := false,
    DevContainerImage := "", AIChatContinuity := false,
    VSCodeExtensions := [], License := "none", Year := 2024 }

/-- Claim C1 as stated: for every invocation of `Scaffold` (any template
set, clock, state, destination, configuration and override flag), every
file that existed under the destination beforehand has byte-identical
content afterwards. -/
def C1Claim : Prop :=
  ∀ (render : String → TemplateData → String) (currentYear : Int) (fs : FS)
    (targetDir : Path) (data : TemplateData) (allowNonEmpty : List Bool)
    (p : Path) (c : String),
    targetDir <+: p → fs.lookup p = some (.file c) →
    ((Scaffold render currentYear fs targetDir data allowNonEmpty).1).lookup p =
      some (.file c)

/-- Claim C6 as stated: (i) for every destination path that does not
exist, `prepareDirectory` fails with a message containing
"parent directory" whenever the parent path does not exist or is a
regular file; (ii) only when the parent exists and is a directory is the
destination directory created; (iii) a destination that exists as a
regular file fails with a message containing "not a directory". -/
def C6Claim : Prop :=
  (∀ (fs : FS) (targetDir : Path) (a : Bool),
    fs.lookup targetDir = none →
    (fs.lookup targetDir.dropLast = none ∨
      ∃ c, fs.lookup targetDir.dropLast = some (.file c)) →
    ∃ e, prepareDirectory fs targetDir a = (fs, some e) ∧ strContains e "parent directory")
  ∧ (∀ (fs : FS) (targetDir : Path) (a : Bool) (fs' : FS),
      fs.lookup targetDir = none → prepareDirectory fs targetDir a = (fs', none) →
      fs.lookup targetDir.dropLast = some .dir)
  ∧ (∀ (fs : FS) (targetDir : Path) (a : Bool) (c : String),
      fs.lookup targetDir = some (.file c) →
      ∃ e, prepareDirectory fs targetDir a = (fs, some e) ∧ strContains e "not a directory")

/-! ## Basic lemmas about the model -/

theorem strContains_of_chunk (s pre lit post pat : String)
    (hs : s = pre ++ lit ++ post) (h : strContains lit pat) : strContains s pat := by
  subst hs
  unfold strContains at h ⊢
  refine h.trans ⟨pre.data, post.data, ?_⟩
  simp [String.data_append]

theorem find?_filter_ne (l : List (Path × Node)) (p q : Path) (h : p ≠ q) :
    ((l.filter fun kv => decide (kv.1 ≠ q)).find? fun kv => decide (kv.1 = p)) =
      l.find? fun kv => decide (kv.1 = p) := by
  induction l with
  | nil => rfl
  | cons kv rest ih =>
    by_cases hkq : kv.1 = q
    · have h1 : (List.filter (fun kv => decide (kv.1 ≠ q)) (kv :: rest)) =
          List.filter (fun kv => decide (kv.1 ≠ q)) rest := by
        simp [List.filter_cons, hkq]
      have h2 : decide (kv.1 = p) = false := by
        simp only [decide_eq_false_iff_not]
        rw [hkq]
        exact fun he => h he.symm
      rw [h1, ih]
      conv_rhs => rw [List.find?_cons]
      rw [h2]
    · have h1 : (List.filter (fun kv => decide (kv.1 ≠ q)) (kv :: rest)) =
          kv :: List.filter (fun kv => decide (kv.1 ≠ q)) rest := by
        simp [List.filter_cons, hkq]
      rw [h1]
      cases hkp : decide (kv.1 = p) with
      | true => simp only [List.find?_cons, hkp]
      | false =>
        simp only [List.find?_cons, hkp]
        exact ih

theorem FS.lookup_insert (fs : FS) (p q : Path) (n : Node) :
    (fs.insert q n).lookup p = if p = q then some n else fs.lookup p := by
  simp only [FS.lookup, FS.insert]
  by_cases h : p = q
  · subst h
    simp [List.find?_cons]
  · have hd : decide ((q, n).1 = p) = false := by
      simp only [decide_eq_false_iff_not]
      exact fun he => h he.symm
    simp only [List.find?_cons, hd]
    rw [find?_filter_ne _ p q h, if_neg h]

theorem FS.lookup_insert_self (fs : FS) (q : Path) (n : Node) :
    (fs.insert q n).lookup q = some n := by
  simp [FS.lookup_insert]

theorem FS.lookup_insert_ne (fs : FS) (p q : Path) (n : Node) (h : p ≠ q) :
    (fs.insert q n).lookup p = fs.lookup p := by
  simp [FS.lookup_insert, h]

theorem list_any_congr {α : Type} (l : List α) (f g : α → Bool)
    (h : ∀ x ∈ l, f x = g x) : l.any f = l.any g := by
  induction l with
  | nil => rfl
  | cons x rest ih =>
    simp only [List.any_cons]
    rw [h x (List.mem_cons_self x rest), ih fun y hy => h y (List.mem_cons_of_mem x hy)]

theorem take_length_lt {α : Type} (l : List α) (i : Nat) (h : i < l.length) :
    (l.take i).length = i := by
  simp [List.length_take]
  omega

theorem FS.hasFileAncestor_insert_of_length (fs : FS) (q : Path) (n : Node) (p : Path)
    (h : p.length ≤ q.length) :
    (fs.insert q n).hasFileAncestor p = fs.hasFileAncestor p := by
  unfold FS.hasFileAncestor
  apply list_any_congr
  intro i hi
  rw [List.mem_range] at hi
  have hlen : (p.take i).length = i := take_length_lt p i hi
  have hne : p.take i ≠ q := by
    intro he
    have := congrArg List.length he
    omega
  rw [FS.lookup_insert_ne fs _ q n hne]

theorem FS.hasFileAncestor_insert_dir (fs : FS) (q : Path) (p : Path)
    (hq : fs.lookup q = none) :
    (fs.insert q .dir).hasFileAncestor p = fs.hasFileAncestor p := by
  unfold FS.hasFileAncestor
  apply list_any_congr
  intro i hi
  rw [FS.lookup_insert]
  by_cases he : p.take i = q
  · rw [if_pos he, he, hq]
    rfl
  · rw [if_neg he]

theorem FS.writeFile_ok_insert {fs : FS} {p : Path} {content : String} {fs' : FS}
    (h : fs.writeFile p content = .ok fs') : fs' = fs.insert p (.file content) := by
  unfold FS.writeFile at h
  split at h
  · cases h
  · split at h
    · cases h
    · cases h
      rfl
    · cases h

theorem FS.writeFile_ok (fs : FS) (p : Path) (content : String)
    (h1 : fs.hasFileAncestor p = false) (h2 : fs.lookup p.dropLast = some .dir)
    (h3 : fs.lookup p ≠ some .dir) :
    fs.writeFile p content = .ok (fs.insert p (.file content)) := by
  unfold FS.writeFile
  rw [h1]
  simp only [Bool.false_eq_true, if_false]
  rw [h2]
  rcases hp : fs.lookup p with _ | n
  · rfl
  · cases n with
    | file c => rfl
    | dir => exact absurd hp h3

theorem FS.stat_of_noFileAncestor (fs : FS) (p : Path)
    (h : fs.hasFileAncestor p = false) : fs.stat p = .ok (fs.lookup p) := by
  unfold FS.stat
  rw [h]
  simp

theorem FS.stat_ok_elim {fs : FS} {p : Path} {v : Option Node}
    (h : fs.stat p = .ok v) : fs.hasFileAncestor p = false ∧ fs.lookup p = v := by
  unfold FS.stat at h
  split at h
  · cases h
  · rename_i hfa
    cases h
    exact ⟨by simpa using hfa, rfl⟩

theorem mkdirAllAux_lookup_isSome (rest : List String) :
    ∀ (fs : FS) (built : Path) (q : Path), (fs.lookup q).isSome →
      ((mkdirAllAux fs built rest).1).lookup q = fs.lookup q := by
  induction rest with
  | nil => intro fs built q _; rfl
  | cons c rest ih =>
    intro fs built q hq
    rcases hl : fs.lookup (built ++ [c]) with _ | n
    · have hne : q ≠ built ++ [c] := by
        intro he
        rw [he, hl] at hq
        cases hq
      have hq' : ((fs.insert (built ++ [c]) .dir).lookup q).isSome := by
        rw [FS.lookup_insert_ne fs q _ _ hne]
        exact hq
      calc ((mkdirAllAux fs built (c :: rest)).1).lookup q
          = ((mkdirAllAux (fs.insert (built ++ [c]) .dir) (built ++ [c]) rest).1).lookup q := by
            simp only [mkdirAllAux, hl]
        _ = (fs.insert (built ++ [c]) .dir).lookup q := ih _ _ q hq'
        _ = fs.lookup q := FS.lookup_insert_ne fs q _ _ hne
    · cases n with
      | file fc => simp only [mkdirAllAux, hl]
      | dir =>
        calc ((mkdirAllAux fs built (c :: rest)).1).lookup q
            = ((mkdirAllAux fs (built ++ [c]) rest).1).lookup q := by
              simp only [mkdirAllAux, hl]
          _ = fs.lookup q := ih _ _ q hq

theorem mkdirAllAux_hasFileAncestor (rest : List String) :
    ∀ (fs : FS) (built : Path) (p : Path),
      ((mkdirAllAux fs built rest).1).hasFileAncestor p = fs.hasFileAncestor p := by
  induction rest with
  | nil => intro fs built p; rfl
  | cons c rest ih =>
    intro fs built p
    rcases hl : fs.lookup (built ++ [c]) with _ | n
    · calc ((mkdirAllAux fs built (c :: rest)).1).hasFileAncestor p
          = ((mkdirAllAux (fs.insert (built ++ [c]) .dir) (built ++ [c]) rest).1).hasFileAncestor p := by
            simp only [mkdirAllAux, hl]
        _ = (fs.insert (built ++ [c]) .dir).hasFileAncestor p := ih _ _ p
        _ = fs.hasFileAncestor p := FS.hasFileAncestor_insert_dir fs _ p hl
    · cases n with
      | file fc => simp only [mkdirAllAux, hl]
      | dir =>
        calc ((mkdirAllAux fs built (c :: rest)).1).hasFileAncestor p
            = ((mkdirAllAux fs (built ++ [c]) rest).1).hasFileAncestor p := by
              simp only [mkdirAllAux, hl]
          _ = fs.hasFileAncestor p := ih _ _ p

theorem mkdirAllAux_lookup_long (rest : List String) :
    ∀ (fs : FS) (built : Path) (q : Path), built.length + rest.length < q.length →
      ((mkdirAllAux fs built rest).1).lookup q = fs.lookup q := by
  induction rest with
  | nil => intro fs built q _; rfl
  | cons c rest ih =>
    intro fs built q hlen
    have hlc : (built ++ [c]).length = built.length + 1 := by simp
    have hne : q ≠ built ++ [c] := by
      intro he
      have := congrArg List.length he
      simp only [List.length_cons] at hlen
      omega
    rcases hl : fs.lookup (built ++ [c]) with _ | n
    · calc ((mkdirAllAux fs built (c :: rest)).1).lookup q
          = ((mkdirAllAux (fs.insert (built ++ [c]) .dir) (built ++ [c]) rest).1).lookup q := by
            simp only [mkdirAllAux, hl]
        _ = (fs.insert (built ++ [c]) .dir).lookup q := by
            apply ih
            simp only [List.length_cons] at hlen
            omega
        _ = fs.lookup q := FS.lookup_insert_ne fs q _ _ hne
    · cases n with
      | file fc => simp only [mkdirAllAux, hl]
      | dir =>
        calc ((mkdirAllAux fs built (c :: rest)).1).lookup q
            = ((mkdirAllAux fs (built ++ [c]) rest).1).lookup q := by
              simp only [mkdirAllAux, hl]
          _ = fs.lookup q := by
            apply ih
            simp only [List.length_cons] at hlen
            omega

theorem mkdirAllAux_ok_dirs (rest : List String) :
    ∀ (fs : FS) (built : Path), (mkdirAllAux fs built rest).2 = none →
      ∀ j, 1 ≤ j → j ≤ rest.length →
        ((mkdirAllAux fs built rest).1).lookup (built ++ rest.take j) = some .dir := by
  induction rest with
  | nil =>
    intro fs built _ j h1 h2
    simp at h2
    omega
  | cons c rest ih =>
    intro fs built hok j h1 h2
    rcases hl : fs.lookup (built ++ [c]) with _ | n
    · have hstep : mkdirAllAux fs built (c :: rest) =
          mkdirAllAux (fs.insert (built ++ [c]) .dir) (built ++ [c]) rest := by
        simp only [mkdirAllAux, hl]
      rw [hstep] at hok ⊢
      match j, h1 with
      | 1, _ =>
        have : built ++ (c :: rest).take 1 = built ++ [c] := by simp
        rw [this]
        rw [mkdirAllAux_lookup_isSome rest _ _ _ (by rw [FS.lookup_insert_self]; rfl)]
        exact FS.lookup_insert_self fs _ .dir
      | (j' + 2), _ =>
        have harr : built ++ (c :: rest).take (j' + 2) = (built ++ [c]) ++ rest.take (j' + 1) := by
          simp [List.take_succ_cons, List.append_assoc]
        rw [harr]
        apply ih _ _ hok
        · omega
        · simp only [List.length_cons] at h2
          omega
    · cases n with
      | file fc =>
        have : (mkdirAllAux fs built (c :: rest)).2 = some ("mkdir " ++ pathStr (built ++ [c]) ++ ": not a directory") := by
          simp only [mkdirAllAux, hl]
        rw [this] at hok
        cases hok
      | dir =>
        have hstep : mkdirAllAux fs built (c :: rest) = mkdirAllAux fs (built ++ [c]) rest := by
          simp only [mkdirAllAux, hl]
        rw [hstep] at hok ⊢
        match j, h1 with
        | 1, _ =>
          have : built ++ (c :: rest).take 1 = built ++ [c] := by simp
          rw [this]
          rw [mkdirAllAux_lookup_isSome rest _ _ _ (by rw [hl]; rfl)]
          exact hl
        | (j' + 2), _ =>
          have harr : built ++ (c :: rest).take (j' + 2) = (built ++ [c]) ++ rest.take (j' + 1) := by
            simp [List.take_succ_cons, List.append_assoc]
          rw [harr]
          apply ih _ _ hok
          · omega
          · simp only [List.length_cons] at h2
            omega

theorem mkdirAllAux_noop (rest : List String) :
    ∀ (fs : FS) (built : Path),
      (∀ j, 1 ≤ j → j ≤ rest.length → fs.lookup (built ++ rest.take j) = some .dir) →
      mkdirAllAux fs built rest = (fs, none) := by
  induction rest with
  | nil => intro fs built _; rfl
  | cons c rest ih =>
    intro fs built h
    have h1 : fs.lookup (built ++ [c]) = some .dir := by
      have := h 1 (by omega) (by simp)
      simpa using this
    have hstep : mkdirAllAux fs built (c :: rest) = mkdirAllAux fs (built ++ [c]) rest := by
      simp only [mkdirAllAux, h1]
    rw [hstep]
    apply ih
    intro j hj1 hj2
    have := h (j + 1) (by omega) (by simp; omega)
    have harr : built ++ (c :: rest).take (j + 1) = (built ++ [c]) ++ rest.take j := by
      simp [List.take_succ_cons, List.append_assoc]
    rw [harr] at this
    exact this

theorem FS.mkdirAll_lookup_isSome (fs : FS) (p q : Path) (h : (fs.lookup q).isSome) :
    ((fs.mkdirAll p).1).lookup q = fs.lookup q :=
  mkdirAllAux_lookup_isSome p fs [] q h

theorem FS.mkdirAll_hasFileAncestor (fs : FS) (p q : Path) :
    ((fs.mkdirAll p).1).hasFileAncestor q = fs.hasFileAncestor q :=
  mkdirAllAux_hasFileAncestor p fs [] q

theorem FS.mkdirAll_lookup_long (fs : FS) (p q : Path) (h : p.length < q.length) :
    ((fs.mkdirAll p).1).lookup q = fs.lookup q :=
  mkdirAllAux_lookup_long p fs [] q (by simpa using h)

theorem FS.mkdirAll_ok_dirs (fs : FS) (p : Path) (h : (fs.mkdirAll p).2 = none) :
    ∀ i, 1 ≤ i → i ≤ p.length → ((fs.mkdirAll p).1).lookup (p.take i) = some .dir := by
  intro i h1 h2
  have := mkdirAllAux_ok_dirs p fs [] h i h1 h2
  simpa using this

theorem FS.mkdirAll_noop (fs : FS) (p : Path)
    (h : ∀ i, 1 ≤ i → i ≤ p.length → fs.lookup (p.take i) = some .dir) :
    fs.mkdirAll p = (fs, none) :=
  mkdirAllAux_noop p fs [] (by simpa using h)

theorem FS.mkdir_ok_insert {fs : FS} {p : Path} {fs' : FS}
    (h : fs.mkdir p = .ok fs') : fs' = fs.insert p .dir ∧ fs.lookup p = none := by
  unfold FS.mkdir at h
  split at h
  · cases h
  · rename_i hsome
    split at h
    · cases h
      exact ⟨rfl, Option.not_isSome_iff_eq_none.mp hsome⟩
    · cases h
    · cases h

/-! ### Frame lemmas: which paths each operation can touch -/

theorem prepareDirectory_lookup_ne (fs : FS) (dir : Path) (a : Bool) (p : Path)
    (h : p ≠ dir) : ((prepareDirectory fs dir a).1).lookup p = fs.lookup p := by
  unfold prepareDirectory
  have hmk : ((match fs.mkdir dir with
      | .ok fs' => (fs', none)
      | .error e => (fs, some ("failed to create directory " ++ pathStr dir ++ ": " ++ e)) :
        FS × Option String)).1.lookup p = fs.lookup p := by
    rcases hm : fs.mkdir dir with e | fs'
    · simp only [hm]
    · simp only [hm]
      obtain ⟨hins, _⟩ := FS.mkdir_ok_insert hm
      rw [hins, FS.lookup_insert_ne fs p dir .dir h]
  split
  · rcases hsp : fs.stat dir.dropLast with e | v
    · simp only [hsp]
      exact hmk
    · cases v with
      | none => simp only [hsp]
      | some n =>
        simp only [hsp]
        exact hmk
  · rfl
  · rfl
  · split
    · rfl
    · rfl

theorem prepareDirectory_preserves_file (fs : FS) (dir : Path) (a : Bool) (p : Path)
    (c : String) (h : fs.lookup p = some (.file c)) :
    ((prepareDirectory fs dir a).1).lookup p = some (.file c) := by
  by_cases hpd : p = dir
  · subst hpd
    unfold prepareDirectory
    rcases hs : fs.stat p with e | v
    · simp only [hs]
      exact h
    · obtain ⟨_, hl⟩ := FS.stat_ok_elim hs
      have hv : v = some (.file c) := by rw [← hl, h]
      subst hv
      simp only [hs]
      exact h
  · rw [prepareDirectory_lookup_ne fs dir a p hpd]
    exact h

theorem renderTemplate_lookup_ne (render : String → TemplateData → String) (fs : FS)
    (dir : Path) (t : String) (data : TemplateData) (p : Path)
    (h : p ≠ dir ++ [stripTmpl t]) :
    ((renderTemplate render fs dir t data).1).lookup p = fs.lookup p := by
  unfold renderTemplate
  rcases hw : fs.writeFile (dir ++ [stripTmpl t]) (render t data) with e | fs'
  · simp only [hw]
  · simp only [hw]
    rw [FS.writeFile_ok_insert hw, FS.lookup_insert_ne fs p _ _ h]

theorem renderTemplates_lookup_ne (render : String → TemplateData → String)
    (dir : Path) (data : TemplateData) (p : Path) (ts : List String) :
    ∀ fs : FS, (∀ t ∈ ts, p ≠ dir ++ [stripTmpl t]) →
      ((renderTemplates render dir data fs ts).1).lookup p = fs.lookup p := by
  induction ts with
  | nil => intro fs _; rfl
  | cons t ts ih =>
    intro fs h
    have ht := h t (List.mem_cons_self t ts)
    unfold renderTemplates
    rcases hr : renderTemplate render fs dir t data with ⟨fs', e⟩
    cases e with
    | none =>
      have : ((renderTemplates render dir data fs' ts).1).lookup p = fs'.lookup p :=
        ih fs' fun t' ht' => h t' (List.mem_cons_of_mem t ht')
      rw [this]
      have := renderTemplate_lookup_ne render fs dir t data p ht
      rw [hr] at this
      exact this
    | some e =>
      have := renderTemplate_lookup_ne render fs dir t data p ht
      rw [hr] at this
      exact this

theorem scaffoldLicense_lookup_ne (render : String → TemplateData → String) (fs : FS)
    (dir : Path) (data : TemplateData) (p : Path) (h : p ≠ dir ++ ["LICENSE"]) :
    ((scaffoldLicense render fs dir data).1).lookup p = fs.lookup p := by
  unfold scaffoldLicense
  have hw : ∀ tmplName : String,
      ((match fs.writeFile (dir ++ ["LICENSE"]) (render tmplName data) with
        | .ok fs' => (fs', none)
        | .error e => (fs, some ("failed to create LICENSE: " ++ e)) :
          FS × Option String).1).lookup p = fs.lookup p := by
    intro tmplName
    rcases hwf : fs.writeFile (dir ++ ["LICENSE"]) (render tmplName data) with e | fs'
    · simp only [hwf]
    · simp only [hwf]
      rw [FS.writeFile_ok_insert hwf, FS.lookup_insert_ne fs p _ _ h]
  split
  · exact hw _
  · exact hw _
  · rfl

theorem ne_of_length_ne {p q : Path} (h : p.length ≠ q.length) : p ≠ q := by
  intro he
  exact h (congrArg List.length he)

theorem writeVSCodeExtensions_preserves_file (fs : FS) (dir : Path) (exts : List String)
    (p : Path) (c : String) (h : fs.lookup p = some (.file c))
    (hne : p ≠ dir ++ [".vscode", "extensions.json"]) :
    ((writeVSCodeExtensions fs dir exts).1).lookup p = some (.file c) := by
  unfold writeVSCodeExtensions
  rcases hm : fs.mkdirAll (dir ++ [".vscode"]) with ⟨fs₁, e₁⟩
  have hfs₁ : fs₁.lookup p = some (.file c) := by
    have := FS.mkdirAll_lookup_isSome fs (dir ++ [".vscode"]) p (by rw [h]; rfl)
    rw [hm] at this
    rw [this]
    exact h
  have harr : (dir ++ [".vscode"]) ++ ["extensions.json"] = dir ++ [".vscode", "extensions.json"] := by
    simp
  cases e₁ with
  | some e =>
    simp only [hm]
    exact hfs₁
  | none =>
    simp only [hm]
    rcases hw : fs₁.writeFile ((dir ++ [".vscode"]) ++ ["extensions.json"])
        ((VSCodeWorkspaceExtensions.toJson ⟨exts⟩).render 0 ++ "\n") with e | fs₂
    · simp only [hw]
      exact hfs₁
    · simp only [hw]
      rw [FS.writeFile_ok_insert hw,
        FS.lookup_insert_ne fs₁ p _ _ (by rw [harr]; exact hne)]
      exact hfs₁

theorem writeVSCodeExtensions_lookup_ne (fs : FS) (dir : Path) (exts : List String)
    (p : Path) (hne : p ≠ dir ++ [".vscode", "extensions.json"])
    (hlen : dir.length + 1 < p.length) :
    ((writeVSCodeExtensions fs dir exts).1).lookup p = fs.lookup p := by
  unfold writeVSCodeExtensions
  rcases hm : fs.mkdirAll (dir ++ [".vscode"]) with ⟨fs₁, e₁⟩
  have hfs₁ : fs₁.lookup p = fs.lookup p := by
    have := FS.mkdirAll_lookup_long fs (dir ++ [".vscode"]) p (by simpa using hlen)
    rw [hm] at this
    exact this
  have harr : (dir ++ [".vscode"]) ++ ["extensions.json"] = dir ++ [".vscode", "extensions.json"] := by
    simp
  cases e₁ with
  | some e =>
    simp only [hm]
    exact hfs₁
  | none =>
    simp only [hm]
    rcases hw : fs₁.writeFile ((dir ++ [".vscode"]) ++ ["extensions.json"])
        ((VSCodeWorkspaceExtensions.toJson ⟨exts⟩).render 0 ++ "\n") with e | fs₂
    · simp only [hw]
      exact hfs₁
    · simp only [hw]
      rw [FS.writeFile_ok_insert hw,
        FS.lookup_insert_ne fs₁ p _ _ (by rw [harr]; exact hne)]
      exact hfs₁

theorem scaffoldDevContainer_preserves_file (render : String → TemplateData → String)
    (fs : FS) (dir : Path) (data : TemplateData) (p : Path) (c : String)
    (h : fs.lookup p = some (.file c))
    (h1 : p ≠ dir ++ [".devcontainer", "Dockerfile"])
    (h2 : p ≠ dir ++ [".devcontainer", "setup.sh"])
    (h3 : p ≠ dir ++ [".devcontainer", "devcontainer.json"]) :
    ((scaffoldDevContainer render fs dir data).1).lookup p = some (.file c) := by
  unfold scaffoldDevContainer
  rcases hm : fs.mkdirAll (dir ++ [".devcontainer"]) with ⟨fs₁, e₁⟩
  have hfs₁ : fs₁.lookup p = some (.file c) := by
    have := FS.mkdirAll_lookup_isSome fs (dir ++ [".devcontainer"]) p (by rw [h]; rfl)
    rw [hm] at this
    rw [this]
    exact h
  cases e₁ with
  | some e =>
    simp only [hm]
    exact hfs₁
  | none =>
    simp only [hm]
    have hstrip : stripTmpl "Dockerfile.tmpl" = "Dockerfile" := by decide
    rcases hr : renderTemplate render fs₁ (dir ++ [".devcontainer"]) "Dockerfile.tmpl" data
      with ⟨fs₂, e₂⟩
    have hfs₂ : fs₂.lookup p = some (.file c) := by
      have := renderTemplate_lookup_ne render fs₁ (dir ++ [".devcontainer"])
        "Dockerfile.tmpl" data p (by rw [hstrip]; simpa using h1)
      rw [hr] at this
      rw [this]
      exact hfs₁
    cases e₂ with
    | some e =>
      simp only [andThen]
      exact hfs₂
    | none =>
      simp only [andThen]
      rcases hsetup : (if data.AIChatContinuity then
          match fs₂.writeFile ((dir ++ [".devcontainer"]) ++ ["setup.sh"])
              (generateSetupScript extensionsSymlink) with
          | .ok fs'' => (fs'', none)
          | .error e => (fs₂, some ("failed to write setup.sh: " ++ e))
        else (fs₂, none)) with ⟨fs₃, e₃⟩
      have hfs₃ : fs₃.lookup p = some (.file c) := by
        by_cases hcont : data.AIChatContinuity
        · rw [if_pos hcont] at hsetup
          rcases hw : fs₂.writeFile ((dir ++ [".devcontainer"]) ++ ["setup.sh"])
              (generateSetupScript extensionsSymlink) with e | fs₄
          · rw [hw] at hsetup
            cases hsetup
            exact hfs₂
          · rw [hw] at hsetup
            cases hsetup
            rw [FS.writeFile_ok_insert hw,
              FS.lookup_insert_ne fs₂ p _ _ (by simpa using h2)]
            exact hfs₂
        · rw [if_neg hcont] at hsetup
          cases hsetup
          exact hfs₂
      rw [hsetup]
      cases e₃ with
      | some e =>
        simp only [andThen]
        exact hfs₃
      | none =>
        simp only [andThen]
        rcases hw : fs₃.writeFile ((dir ++ [".devcontainer"]) ++ ["devcontainer.json"])
            ((devContainerFor data).toJson.render 0 ++ "\n") with e | fs₄
        · simp only [hw]
          exact hfs₃
        · simp only [hw]
          rw [FS.writeFile_ok_insert hw,
            FS.lookup_insert_ne fs₃ p _ _ (by simpa using h3)]
          exact hfs₃

theorem scaffoldDevContainer_lookup_ne (render : String → TemplateData → String)
    (fs : FS) (dir : Path) (data : TemplateData) (p : Path)
    (h1 : p ≠ dir ++ [".devcontainer", "Dockerfile"])
    (h2 : p ≠ dir ++ [".devcontainer", "setup.sh"])
    (h3 : p ≠ dir ++ [".devcontainer", "devcontainer.json"])
    (hlen : dir.length + 1 < p.length) :
    ((scaffoldDevContainer render fs dir data).1).lookup p = fs.lookup p := by
  unfold scaffoldDevContainer
  rcases hm : fs.mkdirAll (dir ++ [".devcontainer"]) with ⟨fs₁, e₁⟩
  have hfs₁ : fs₁.lookup p = fs.lookup p := by
    have := FS.mkdirAll_lookup_long fs (dir ++ [".devcontainer"]) p (by simpa using hlen)
    rw [hm] at this
    exact this
  cases e₁ with
  | some e =>
    simp only [hm]
    exact hfs₁
  | none =>
    simp only [hm]
    have hstrip : stripTmpl "Dockerfile.tmpl" = "Dockerfile" := by decide
    rcases hr : renderTemplate render fs₁ (dir ++ [".devcontainer"]) "Dockerfile.tmpl" data
      with ⟨fs₂, e₂⟩
    have hfs₂ : fs₂.lookup p = fs.lookup p := by
      have := renderTemplate_lookup_ne render fs₁ (dir ++ [".devcontainer"])
        "Dockerfile.tmpl" data p (by rw [hstrip]; simpa using h1)
      rw [hr] at this
      rw [this]
      exact hfs₁
    cases e₂ with
    | some e =>
      simp only [andThen]
      exact hfs₂
    | none =>
      simp only [andThen]
      rcases hsetup : (if data.AIChatContinuity then
          match fs₂.writeFile ((dir ++ [".devcontainer"]) ++ ["setup.sh"])
              (generateSetupScript extensionsSymlink) with
          | .ok fs'' => (fs'', none)
          | .error e => (fs₂, some ("failed to write setup.sh: " ++ e))
        else (fs₂, none)) with ⟨fs₃, e₃⟩
      have hfs₃ : fs₃.lookup p = fs.lookup p := by
        by_cases hcont : data.AIChatContinuity
        · rw [if_pos hcont] at hsetup
          rcases hw : fs₂.writeFile ((dir ++ [".devcontainer"]) ++ ["setup.sh"])
              (generateSetupScript extensionsSymlink) with e | fs₄
          · rw [hw] at hsetup
            cases hsetup
            exact hfs₂
          · rw [hw] at hsetup
            cases hsetup
            rw [FS.writeFile_ok_insert hw,
              FS.lookup_insert_ne fs₂ p _ _ (by simpa using h2)]
            exact hfs₂
        · rw [if_neg hcont] at hsetup
          cases hsetup
          exact hfs₂
      rw [hsetup]
      cases e₃ with
      | some e =>
        simp only [andThen]
        exact hfs₃
      | none =>
        simp only [andThen]
        rcases hw : fs₃.writeFile ((dir ++ [".devcontainer"]) ++ ["devcontainer.json"])
            ((devContainerFor data).toJson.render 0 ++ "\n") with e | fs₄
        · simp only [hw]
          exact hfs₃
        · simp only [hw]
          rw [FS.writeFile_ok_insert hw,
            FS.lookup_insert_ne fs₃ p _ _ (by simpa using h3)]
          exact hfs₃

theorem andThen_eq_ok {r : FS × Option String} {k : FS → FS × Option String} {fs' : FS}
    (h : andThen r k = (fs', none)) : ∃ fsm, r = (fsm, none) ∧ k fsm = (fs', none) := by
  rcases r with ⟨rfs, re⟩
  cases re with
  | none => exact ⟨rfs, rfl, h⟩
  | some e => exact Option.noConfusion (congrArg Prod.snd h)

theorem writeVSCodeExtensions_ok_lookup (fs : FS) (dir : Path) (exts : List String)
    (fs' : FS) (h : writeVSCodeExtensions fs dir exts = (fs', none)) :
    fs'.lookup (dir ++ [".vscode", "extensions.json"]) =
      some (.file ((VSCodeWorkspaceExtensions.toJson ⟨exts⟩).render 0 ++ "\n")) := by
  unfold writeVSCodeExtensions at h
  rcases hm : fs.mkdirAll (dir ++ [".vscode"]) with ⟨fs₁, e₁⟩
  cases e₁ with
  | some e =>
    simp only [hm] at h
    exact Option.noConfusion (congrArg Prod.snd h)
  | none =>
    simp only [hm] at h
    rcases hw : fs₁.writeFile ((dir ++ [".vscode"]) ++ ["extensions.json"])
        ((VSCodeWorkspaceExtensions.toJson ⟨exts⟩).render 0 ++ "\n") with e | fs₂
    · rw [hw] at h
      exact Option.noConfusion (congrArg Prod.snd h)
    · rw [hw] at h
      have hfs : fs' = fs₂ := (congrArg Prod.fst h).symm
      rw [hfs, FS.writeFile_ok_insert hw]
      have harr : (dir ++ [".vscode"]) ++ ["extensions.json"] =
          dir ++ [".vscode", "extensions.json"] := by simp
      rw [← harr]
      exact FS.lookup_insert_self fs₁ _ _

theorem scaffoldDevContainer_ok_setup (render : String → TemplateData → String)
    (fs : FS) (dir : Path) (data : TemplateData) (fs' : FS)
    (hcont : data.AIChatContinuity = true)
    (h : scaffoldDevContainer render fs dir data = (fs', none)) :
    fs'.lookup (dir ++ [".devcontainer", "setup.sh"]) =
      some (.file (generateSetupScript extensionsSymlink)) := by
  unfold scaffoldDevContainer at h
  rcases hm : fs.mkdirAll (dir ++ [".devcontainer"]) with ⟨fs₁, e₁⟩
  cases e₁ with
  | some e =>
    simp only [hm] at h
    exact Option.noConfusion (congrArg Prod.snd h)
  | none =>
    simp only [hm] at h
    obtain ⟨fs₂, hr, h⟩ := andThen_eq_ok h
    obtain ⟨fs₃, hsetup, h⟩ := andThen_eq_ok h
    rw [if_pos hcont] at hsetup
    rcases hw : fs₂.writeFile ((dir ++ [".devcontainer"]) ++ ["setup.sh"])
        (generateSetupScript extensionsSymlink) with e | fs₄
    · rw [hw] at hsetup
      exact Option.noConfusion (congrArg Prod.snd hsetup)
    · rw [hw] at hsetup
      have hfs₃ : fs₃ = fs₄ := (congrArg Prod.fst hsetup).symm
      have hsp : fs₃.lookup (dir ++ [".devcontainer", "setup.sh"]) =
          some (.file (generateSetupScript extensionsSymlink)) := by
        rw [hfs₃, FS.writeFile_ok_insert hw]
        have harr : (dir ++ [".devcontainer"]) ++ ["setup.sh"] =
            dir ++ [".devcontainer", "setup.sh"] := by simp
        rw [← harr]
        exact FS.lookup_insert_self fs₂ _ _
      rcases hw2 : fs₃.writeFile ((dir ++ [".devcontainer"]) ++ ["devcontainer.json"])
          ((devContainerFor data).toJson.render 0 ++ "\n") with e | fs₅
      · rw [hw2] at h
        exact Option.noConfusion (congrArg Prod.snd h)
      · rw [hw2] at h
        have hfs' : fs' = fs₅ := (congrArg Prod.fst h).symm
        rw [hfs', FS.writeFile_ok_insert hw2, FS.lookup_insert_ne fs₃ _ _ _ (by simp)]
        exact hsp

theorem scaffoldDevContainer_nocont_setup (render : String → TemplateData → String)
    (fs : FS) (dir : Path) (data : TemplateData)
    (hcont : data.AIChatContinuity = false) :
    ((scaffoldDevContainer render fs dir data).1).lookup (dir ++ [".devcontainer", "setup.sh"]) =
      fs.lookup (dir ++ [".devcontainer", "setup.sh"]) := by
  unfold scaffoldDevContainer
  rcases hm : fs.mkdirAll (dir ++ [".devcontainer"]) with ⟨fs₁, e₁⟩
  have hfs₁ : fs₁.lookup (dir ++ [".devcontainer", "setup.sh"]) =
      fs.lookup (dir ++ [".devcontainer", "setup.sh"]) := by
    have := FS.mkdirAll_lookup_long fs (dir ++ [".devcontainer"])
      (dir ++ [".devcontainer", "setup.sh"]) (by simp)
    rw [hm] at this
    exact this
  cases e₁ with
  | some e =>
    simp only [hm]
    exact hfs₁
  | none =>
    simp only [hm]
    have hstrip : stripTmpl "Dockerfile.tmpl" = "Dockerfile" := by decide
    rcases hr : renderTemplate render fs₁ (dir ++ [".devcontainer"]) "Dockerfile.tmpl" data
      with ⟨fs₂, e₂⟩
    have hfs₂ : fs₂.lookup (dir ++ [".devcontainer", "setup.sh"]) =
        fs.lookup (dir ++ [".devcontainer", "setup.sh"]) := by
      have := renderTemplate_lookup_ne render fs₁ (dir ++ [".devcontainer"])
        "Dockerfile.tmpl" data (dir ++ [".devcontainer", "setup.sh"]) (by
          rw [hstrip]
          intro he
          rw [List.append_assoc] at he
          have h2 := List.append_cancel_left he
          exact absurd h2 (by decide))
      rw [hr] at this
      rw [this]
      exact hfs₁
    cases e₂ with
    | some e =>
      simp only [andThen]
      exact hfs₂
    | none =>
      simp only [andThen]
      rw [if_neg (by rw [hcont]; exact Bool.false_ne_true)]
      simp only [andThen]
      rcases hw : fs₂.writeFile ((dir ++ [".devcontainer"]) ++ ["devcontainer.json"])
          ((devContainerFor data).toJson.render 0 ++ "\n") with e | fs₄
      · simp only [hw]
        exact hfs₂
      · simp only [hw]
        rw [FS.writeFile_ok_insert hw,
          FS.lookup_insert_ne fs₂ _ _ _ (by
            intro he
            rw [List.append_assoc] at he
            have h2 := List.append_cancel_left he
            exact absurd h2 (by decide))]
        exact hfs₂

theorem yearAdjust_fields (data : TemplateData) (cy : Int) :
    (if data.Year = 0 then { data with Year := cy } else data).IncludeDevContainer =
        data.IncludeDevContainer ∧
    (if data.Year = 0 then { data with Year := cy } else data).AIChatContinuity =
        data.AIChatContinuity ∧
    (if data.Year = 0 then { data with Year := cy } else data).VSCodeExtensions =
        data.VSCodeExtensions := by
  by_cases hy : data.Year = 0 <;> simp [hy]

theorem core_target_length (dir : Path) (t : String) :
    (dir ++ [stripTmpl t]).length = dir.length + 1 := by simp

theorem Scaffold_nocont_setup_untouched (render : String → TemplateData → String)
    (cy : Int) (fs : FS) (dir : Path) (data : TemplateData) (allow : List Bool)
    (hcont : data.AIChatContinuity = false) :
    ((Scaffold render cy fs dir data allow).1).lookup (dir ++ [".devcontainer", "setup.sh"]) =
      fs.lookup (dir ++ [".devcontainer", "setup.sh"]) := by
  have hPlen : (dir ++ [".devcontainer", "setup.sh"]).length = dir.length + 2 := by simp
  unfold Scaffold
  generalize (match allow with | [] => false | b :: _ => b : Bool) = ne
  rcases hp : prepareDirectory fs dir ne with ⟨fs₁, e₁⟩
  have hfs₁ : fs₁.lookup (dir ++ [".devcontainer", "setup.sh"]) =
      fs.lookup (dir ++ [".devcontainer", "setup.sh"]) := by
    have := prepareDirectory_lookup_ne fs dir ne (dir ++ [".devcontainer", "setup.sh"])
      (ne_of_length_ne (by rw [hPlen]; omega))
    rw [hp] at this
    exact this
  cases e₁ with
  | some e =>
    simp only [hp, andThen]
    exact hfs₁
  | none =>
    simp only [hp, andThen]
    rcases hr : renderTemplates render dir
        (if data.Year = 0 then { data with Year := cy } else data) fs₁ coreTemplates
      with ⟨fs₂, e₂⟩
    have hfs₂ : fs₂.lookup (dir ++ [".devcontainer", "setup.sh"]) =
        fs.lookup (dir ++ [".devcontainer", "setup.sh"]) := by
      have := renderTemplates_lookup_ne render dir
        (if data.Year = 0 then { data with Year := cy } else data)
        (dir ++ [".devcontainer", "setup.sh"]) coreTemplates fs₁
        (fun t _ => ne_of_length_ne (by rw [hPlen, core_target_length]; omega))
      rw [hr] at this
      rw [this]
      exact hfs₁
    cases e₂ with
    | some e =>
      simp only [andThen]
      exact hfs₂
    | none =>
      simp only [andThen]
      rcases hl : scaffoldLicense render fs₂ dir
          (if data.Year = 0 then { data with Year := cy } else data) with ⟨fs₃, e₃⟩
      have hfs₃ : fs₃.lookup (dir ++ [".devcontainer", "setup.sh"]) =
          fs.lookup (dir ++ [".devcontainer", "setup.sh"]) := by
        have := scaffoldLicense_lookup_ne render fs₂ dir
          (if data.Year = 0 then { data with Year := cy } else data)
          (dir ++ [".devcontainer", "setup.sh"])
          (ne_of_length_ne (by rw [hPlen]; simp))
        rw [hl] at this
        rw [this]
        exact hfs₂
      cases e₃ with
      | some e =>
        simp only [andThen]
        exact hfs₃
      | none =>
        simp only [andThen]
        rcases hdc : (if (if data.Year = 0 then { data with Year := cy } else data).IncludeDevContainer
            then scaffoldDevContainer render fs₃ dir
              (if data.Year = 0 then { data with Year := cy } else data)
            else (fs₃, none)) with ⟨fs₄, e₄⟩
        have hfs₄ : fs₄.lookup (dir ++ [".devcontainer", "setup.sh"]) =
            fs.lookup (dir ++ [".devcontainer", "setup.sh"]) := by
          by_cases hdev : (if data.Year = 0 then { data with Year := cy } else data).IncludeDevContainer
          · rw [if_pos hdev] at hdc
            have hcont' : (if data.Year = 0 then { data with Year := cy } else data).AIChatContinuity = false := by
              rw [(yearAdjust_fields data cy).2.1, hcont]
            have := scaffoldDevContainer_nocont_setup render fs₃ dir
              (if data.Year = 0 then { data with Year := cy } else data) hcont'
            rw [hdc] at this
            rw [this]
            exact hfs₃
          · rw [if_neg hdev] at hdc
            cases hdc
            exact hfs₃
        rw [hdc]
        cases e₄ with
        | some e =>
          simp only [andThen]
          exact hfs₄
        | none =>
          simp only [andThen]
          by_cases hvs : (if data.Year = 0 then { data with Year := cy } else data).IncludeDevContainer ∧
              0 < (if data.Year = 0 then { data with Year := cy } else data).VSCodeExtensions.length
          · rw [if_pos hvs]
            rw [writeVSCodeExtensions_lookup_ne fs₄ dir _ _
              (by
                intro he
                have h2 := List.append_cancel_left he
                exact absurd h2 (by decide))
              (by rw [hPlen]; omega)]
            exact hfs₄
          · rw [if_neg hvs]
            exact hfs₄

theorem Scaffold_ext_manifest_untouched (render : String → TemplateData → String)
    (cy : Int) (fs : FS) (dir : Path) (data : TemplateData) (allow : List Bool)
    (hno : ¬(data.IncludeDevContainer = true ∧ data.VSCodeExtensions ≠ [])) :
    ((Scaffold render cy fs dir data allow).1).lookup (dir ++ [".vscode", "extensions.json"]) =
      fs.lookup (dir ++ [".vscode", "extensions.json"]) := by
  have hPlen : (dir ++ [".vscode", "extensions.json"]).length = dir.length + 2 := by simp
  unfold Scaffold
  generalize (match allow with | [] => false | b :: _ => b : Bool) = ne
  rcases hp : prepareDirectory fs dir ne with ⟨fs₁, e₁⟩
  have hfs₁ : fs₁.lookup (dir ++ [".vscode", "extensions.json"]) =
      fs.lookup (dir ++ [".vscode", "extensions.json"]) := by
    have := prepareDirectory_lookup_ne fs dir ne (dir ++ [".vscode", "extensions.json"])
      (ne_of_length_ne (by rw [hPlen]; omega))
    rw [hp] at this
    exact this
  cases e₁ with
  | some e =>
    simp only [hp, andThen]
    exact hfs₁
  | none =>
    simp only [hp, andThen]
    rcases hr : renderTemplates render dir
        (if data.Year = 0 then { data with Year := cy } else data) fs₁ coreTemplates
      with ⟨fs₂, e₂⟩
    have hfs₂ : fs₂.lookup (dir ++ [".vscode", "extensions.json"]) =
        fs.lookup (dir ++ [".vscode", "extensions.json"]) := by
      have := renderTemplates_lookup_ne render dir
        (if data.Year = 0 then { data with Year := cy } else data)
        (dir ++ [".vscode", "extensions.json"]) coreTemplates fs₁
        (fun t _ => ne_of_length_ne (by rw [hPlen, core_target_length]; omega))
      rw [hr] at this
      rw [this]
      exact hfs₁
    cases e₂ with
    | some e =>
      simp only [andThen]
      exact hfs₂
    | none =>
      simp only [andThen]
      rcases hl : scaffoldLicense render fs₂ dir
          (if data.Year = 0 then { data with Year := cy } else data) with ⟨fs₃, e₃⟩
      have hfs₃ : fs₃.lookup (dir ++ [".vscode", "extensions.json"]) =
          fs.lookup (dir ++ [".vscode", "extensions.json"]) := by
        have := scaffoldLicense_lookup_ne render fs₂ dir
          (if data.Year = 0 then { data with Year := cy } else data)
          (dir ++ [".vscode", "extensions.json"])
          (ne_of_length_ne (by rw [hPlen]; simp))
        rw [hl] at this
        rw [this]
        exact hfs₂
      cases e₃ with
      | some e =>
        simp only [andThen]
        exact hfs₃
      | none =>
        simp only [andThen]
        rcases hdc : (if (if data.Year = 0 then { data with Year := cy } else data).IncludeDevContainer
            then scaffoldDevContainer render fs₃ dir
              (if data.Year = 0 then { data with Year := cy } else data)
            else (fs₃, none)) with ⟨fs₄, e₄⟩
        have hfs₄ : fs₄.lookup (dir ++ [".vscode", "extensions.json"]) =
            fs.lookup (dir ++ [".vscode", "extensions.json"]) := by
          by_cases hdev : (if data.Year = 0 then { data with Year := cy } else data).IncludeDevContainer
          · rw [if_pos hdev] at hdc
            have := scaffoldDevContainer_lookup_ne render fs₃ dir
              (if data.Year = 0 then { data with Year := cy } else data)
              (dir ++ [".vscode", "extensions.json"])
              (by
                intro he
                have h2 := List.append_cancel_left he
                exact absurd h2 (by decide))
              (by
                intro he
                have h2 := List.append_cancel_left he
                exact absurd h2 (by decide))
              (by
                intro he
                have h2 := List.append_cancel_left he
                exact absurd h2 (by decide))
              (by rw [hPlen]; omega)
            rw [hdc] at this
            rw [this]
            exact hfs₃
          · rw [if_neg hdev] at hdc
            cases hdc
            exact hfs₃
        rw [hdc]
        cases e₄ with
        | some e =>
          simp only [andThen]
          exact hfs₄
        | none =>
          simp only [andThen]
          have hcond : ¬((if data.Year = 0 then { data with Year := cy } else data).IncludeDevContainer ∧
              0 < (if data.Year = 0 then { data with Year := cy } else data).VSCodeExtensions.length) := by
            rintro ⟨hd, hx⟩
            refine hno ⟨?_, ?_⟩
            · rw [← (yearAdjust_fields data cy).1]
              exact hd
            · rw [← (yearAdjust_fields data cy).2.2]
              intro he
              rw [he] at hx
              simp at hx
          rw [if_neg hcond]
          exact hfs₄

/-! ### Lemmas for the skill installer -/

theorem mkdirAllAux_lookup_short (rest : List String) :
    ∀ (fs : FS) (built : Path) (q : Path), q.length ≤ built.length →
      ((mkdirAllAux fs built rest).1).lookup q = fs.lookup q := by
  induction rest with
  | nil => intro fs built q _; rfl
  | cons c rest ih =>
    intro fs built q hlen
    have hne : q ≠ built ++ [c] := by
      intro he
      have := congrArg List.length he
      simp at this
      omega
    rcases hl : fs.lookup (built ++ [c]) with _ | n
    · calc ((mkdirAllAux fs built (c :: rest)).1).lookup q
          = ((mkdirAllAux (fs.insert (built ++ [c]) .dir) (built ++ [c]) rest).1).lookup q := by
            simp only [mkdirAllAux, hl]
        _ = (fs.insert (built ++ [c]) .dir).lookup q := ih _ _ q (by simp; omega)
        _ = fs.lookup q := FS.lookup_insert_ne fs q _ _ hne
    · cases n with
      | file fc => simp only [mkdirAllAux, hl]
      | dir =>
        calc ((mkdirAllAux fs built (c :: rest)).1).lookup q
            = ((mkdirAllAux fs (built ++ [c]) rest).1).lookup q := by
              simp only [mkdirAllAux, hl]
          _ = fs.lookup q := ih _ _ q (by simp; omega)

theorem FS.mkdirAll_lookup_nil (fs : FS) (p : Path) :
    ((fs.mkdirAll p).1).lookup [] = fs.lookup [] :=
  mkdirAllAux_lookup_short p fs [] [] (by simp)

theorem hasFileAncestor_append_singleton_false (fs : FS) (skillsDir : Path) (name : String)
    (hP1 : ∀ i, 1 ≤ i → i ≤ skillsDir.length → fs.lookup (skillsDir.take i) = some .dir)
    (hP2 : isFileNode (fs.lookup []) = false) :
    fs.hasFileAncestor (skillsDir ++ [name]) = false := by
  unfold FS.hasFileAncestor
  rw [Bool.eq_false_iff]
  intro hany
  rw [List.any_eq_true] at hany
  obtain ⟨i, hi, hpred⟩ := hany
  rw [List.mem_range] at hi
  have hlen : (skillsDir ++ [name]).length = skillsDir.length + 1 := by simp
  rw [hlen] at hi
  have hi' : i ≤ skillsDir.length := by omega
  have htake : (skillsDir ++ [name]).take i = skillsDir.take i :=
    List.take_append_of_le_length hi'
  rw [htake] at hpred
  cases Nat.eq_zero_or_pos i with
  | inl h0 =>
    subst h0
    simp only [List.take_zero] at hpred
    rw [hP2] at hpred
    cases hpred
  | inr hpos =>
    rw [hP1 i hpos hi'] at hpred
    simp [isFileNode] at hpred

theorem stat_error_hasFA {fs : FS} {p : Path} {e : String}
    (h : fs.stat p = .error e) : fs.hasFileAncestor p = true := by
  unfold FS.stat at h
  split at h
  · rename_i hfa
    exact hfa
  · cases h

theorem installLoop_never_overwrites (skillsDir : Path) (ds : List SkillEntry) :
    ∀ (fs : FS) (skipped : List String) (q : Path) (n : Node),
      fs.lookup q = some n →
      ((installLoop skillsDir fs skipped ds).1).lookup q = some n := by
  induction ds with
  | nil => intro fs skipped q n h; exact h
  | cons d ds ih =>
    intro fs skipped q n h
    by_cases hd : d.isDir
    · have hstep : installLoop skillsDir fs skipped (d :: ds) =
          installLoop skillsDir fs skipped ds := by
        simp [installLoop, hd]
      rw [hstep]
      exact ih fs skipped q n h
    · rcases hst : fs.stat (skillsDir ++ [d.name]) with e | v
      · have hfa := stat_error_hasFA hst
        have hw : fs.writeFile (skillsDir ++ [d.name]) d.content =
            .error ("open " ++ pathStr (skillsDir ++ [d.name]) ++ ": not a directory") := by
          unfold FS.writeFile
          rw [hfa]
          simp
        have hstep : installLoop skillsDir fs skipped (d :: ds) =
            (fs, skipped, some ("failed to write " ++ pathStr (skillsDir ++ [d.name]) ++ ": " ++
              ("open " ++ pathStr (skillsDir ++ [d.name]) ++ ": not a directory"))) := by
          simp [installLoop, hd, hst, hw]
        rw [hstep]
        exact h
      · cases v with
        | some vn =>
          have hstep : installLoop skillsDir fs skipped (d :: ds) =
              installLoop skillsDir fs (skipped ++ [d.name]) ds := by
            simp [installLoop, hd, hst]
          rw [hstep]
          exact ih fs _ q n h
        | none =>
          have hnone : fs.lookup (skillsDir ++ [d.name]) = none :=
            (FS.stat_ok_elim hst).2
          rcases hw : fs.writeFile (skillsDir ++ [d.name]) d.content with e | fs₂
          · have hstep : installLoop skillsDir fs skipped (d :: ds) =
                (fs, skipped, some ("failed to write " ++ pathStr (skillsDir ++ [d.name]) ++ ": " ++ e)) := by
              simp [installLoop, hd, hst, hw]
            rw [hstep]
            exact h
          · have hstep : installLoop skillsDir fs skipped (d :: ds) =
                installLoop skillsDir fs₂ skipped ds := by
              simp [installLoop, hd, hst, hw]
            rw [hstep]
            have hq : q ≠ skillsDir ++ [d.name] := by
              intro he
              rw [he, hnone] at h
              cases h
            apply ih
            rw [FS.writeFile_ok_insert hw, FS.lookup_insert_ne fs q _ _ hq]
            exact h

theorem installLoop_lookup_short (skillsDir : Path) (ds : List SkillEntry) :
    ∀ (fs : FS) (skipped : List String) (q : Path), q.length ≤ skillsDir.length →
      ((installLoop skillsDir fs skipped ds).1).lookup q = fs.lookup q := by
  induction ds with
  | nil => intro fs skipped q _; rfl
  | cons d ds ih =>
    intro fs skipped q hlen
    by_cases hd : d.isDir
    · have hstep : installLoop skillsDir fs skipped (d :: ds) =
          installLoop skillsDir fs skipped ds := by
        simp [installLoop, hd]
      rw [hstep]
      exact ih fs skipped q hlen
    · rcases hst : fs.stat (skillsDir ++ [d.name]) with e | v
      · have hfa := stat_error_hasFA hst
        have hw : fs.writeFile (skillsDir ++ [d.name]) d.content =
            .error ("open " ++ pathStr (skillsDir ++ [d.name]) ++ ": not a directory") := by
          unfold FS.writeFile
          rw [hfa]
          simp
        have hstep : installLoop skillsDir fs skipped (d :: ds) =
            (fs, skipped, some ("failed to write " ++ pathStr (skillsDir ++ [d.name]) ++ ": " ++
              ("open " ++ pathStr (skillsDir ++ [d.name]) ++ ": not a directory"))) := by
          simp [installLoop, hd, hst, hw]
        rw [hstep]
      · cases v with
        | some vn =>
          have hstep : installLoop skillsDir fs skipped (d :: ds) =
              installLoop skillsDir fs (skipped ++ [d.name]) ds := by
            simp [installLoop, hd, hst]
          rw [hstep]
          exact ih fs _ q hlen
        | none =>
          rcases hw : fs.writeFile (skillsDir ++ [d.name]) d.content with e | fs₂
          · have hstep : installLoop skillsDir fs skipped (d :: ds) =
                (fs, skipped, some ("failed to write " ++ pathStr (skillsDir ++ [d.name]) ++ ": " ++ e)) := by
              simp [installLoop, hd, hst, hw]
            rw [hstep]
          · have hstep : installLoop skillsDir fs skipped (d :: ds) =
                installLoop skillsDir fs₂ skipped ds := by
              simp [installLoop, hd, hst, hw]
            rw [hstep]
            rw [ih fs₂ skipped q hlen, FS.writeFile_ok_insert hw,
              FS.lookup_insert_ne fs q _ _ (by
                intro he
                have := congrArg List.length he
                simp at this
                omega)]

theorem installLoop_skipped_prefix (skillsDir : Path) (ds : List SkillEntry) :
    ∀ (fs : FS) (skipped : List String),
      ∃ tail, (installLoop skillsDir fs skipped ds).2.1 = skipped ++ tail := by
  induction ds with
  | nil => intro fs skipped; exact ⟨[], by simp [installLoop]⟩
  | cons d ds ih =>
    intro fs skipped
    by_cases hd : d.isDir
    · have hstep : installLoop skillsDir fs skipped (d :: ds) =
          installLoop skillsDir fs skipped ds := by
        simp [installLoop, hd]
      rw [hstep]
      exact ih fs skipped
    · rcases hst : fs.stat (skillsDir ++ [d.name]) with e | v
      · have hfa := stat_error_hasFA hst
        have hw : fs.writeFile (skillsDir ++ [d.name]) d.content =
            .error ("open " ++ pathStr (skillsDir ++ [d.name]) ++ ": not a directory") := by
          unfold FS.writeFile
          rw [hfa]
          simp
        have hstep : installLoop skillsDir fs skipped (d :: ds) =
            (fs, skipped, some ("failed to write " ++ pathStr (skillsDir ++ [d.name]) ++ ": " ++
              ("open " ++ pathStr (skillsDir ++ [d.name]) ++ ": not a directory"))) := by
          simp [installLoop, hd, hst, hw]
        rw [hstep]
        exact ⟨[], by simp⟩
      · cases v with
        | some vn =>
          have hstep : installLoop skillsDir fs skipped (d :: ds) =
              installLoop skillsDir fs (skipped ++ [d.name]) ds := by
            simp [installLoop, hd, hst]
          rw [hstep]
          obtain ⟨tail, htail⟩ := ih fs (skipped ++ [d.name])
          exact ⟨d.name :: tail, by rw [htail]; simp⟩
        | none =>
          rcases hw : fs.writeFile (skillsDir ++ [d.name]) d.content with e | fs₂
          · have hstep : installLoop skillsDir fs skipped (d :: ds) =
                (fs, skipped, some ("failed to write " ++ pathStr (skillsDir ++ [d.name]) ++ ": " ++ e)) := by
              simp [installLoop, hd, hst, hw]
            rw [hstep]
            exact ⟨[], by simp⟩
          · have hstep : installLoop skillsDir fs skipped (d :: ds) =
                installLoop skillsDir fs₂ skipped ds := by
              simp [installLoop, hd, hst, hw]
            rw [hstep]
            exact ih fs₂ skipped

theorem installLoop_all_present (skillsDir : Path) (ds : List SkillEntry) :
    ∀ (fs : FS) (skipped : List String) (fs₁ : FS) (sk₁ : List String),
      installLoop skillsDir fs skipped ds = (fs₁, sk₁, none) →
      ∀ d ∈ ds, d.isDir = false → (fs₁.lookup (skillsDir ++ [d.name])).isSome := by
  induction ds with
  | nil => intro fs skipped fs₁ sk₁ _ d hd; cases hd
  | cons d₀ ds ih =>
    intro fs skipped fs₁ sk₁ hres d hd hdir
    by_cases hd0 : d₀.isDir
    · have hstep : installLoop skillsDir fs skipped (d₀ :: ds) =
          installLoop skillsDir fs skipped ds := by
        simp [installLoop, hd0]
      rw [hstep] at hres
      rcases List.mem_cons.mp hd with rfl | hmem
      · rw [hdir] at hd0
        cases hd0
      · exact ih fs skipped fs₁ sk₁ hres d hmem hdir
    · rcases hst : fs.stat (skillsDir ++ [d₀.name]) with e | v
      · have hfa := stat_error_hasFA hst
        have hw : fs.writeFile (skillsDir ++ [d₀.name]) d₀.content =
            .error ("open " ++ pathStr (skillsDir ++ [d₀.name]) ++ ": not a directory") := by
          unfold FS.writeFile
          rw [hfa]
          simp
        have hstep : installLoop skillsDir fs skipped (d₀ :: ds) =
            (fs, skipped, some ("failed to write " ++ pathStr (skillsDir ++ [d₀.name]) ++ ": " ++
              ("open " ++ pathStr (skillsDir ++ [d₀.name]) ++ ": not a directory"))) := by
          simp [installLoop, hd0, hst, hw]
        rw [hstep] at hres
        exact Option.noConfusion (congrArg (fun r => r.2.2) hres)
      · cases v with
        | some vn =>
          have hsome : fs.lookup (skillsDir ++ [d₀.name]) = some vn :=
            (FS.stat_ok_elim hst).2
          have hstep : installLoop skillsDir fs skipped (d₀ :: ds) =
              installLoop skillsDir fs (skipped ++ [d₀.name]) ds := by
            simp [installLoop, hd0, hst]
          rw [hstep] at hres
          rcases List.mem_cons.mp hd with rfl | hmem
          · have := installLoop_never_overwrites skillsDir ds fs (skipped ++ [d.name])
              (skillsDir ++ [d.name]) vn hsome
            rw [hres] at this
            rw [this]
            rfl
          · exact ih fs _ fs₁ sk₁ hres d hmem hdir
        | none =>
          rcases hw : fs.writeFile (skillsDir ++ [d₀.name]) d₀.content with e | fs₂
          · have hstep : installLoop skillsDir fs skipped (d₀ :: ds) =
                (fs, skipped, some ("failed to write " ++ pathStr (skillsDir ++ [d₀.name]) ++ ": " ++ e)) := by
              simp [installLoop, hd0, hst, hw]
            rw [hstep] at hres
            exact Option.noConfusion (congrArg (fun r => r.2.2) hres)
          · have hstep : installLoop skillsDir fs skipped (d₀ :: ds) =
                installLoop skillsDir fs₂ skipped ds := by
              simp [installLoop, hd0, hst, hw]
            rw [hstep] at hres
            rcases List.mem_cons.mp hd with rfl | hmem
            · have hself : fs₂.lookup (skillsDir ++ [d.name]) = some (.file d.content) := by
                rw [FS.writeFile_ok_insert hw]
                exact FS.lookup_insert_self fs _ _
              have := installLoop_never_overwrites skillsDir ds fs₂ skipped
                (skillsDir ++ [d.name]) (.file d.content) hself
              rw [hres] at this
              rw [this]
              rfl
            · exact ih fs₂ skipped fs₁ sk₁ hres d hmem hdir

theorem installLoop_noop (skillsDir : Path) (hsd : 1 ≤ skillsDir.length)
    (ds : List SkillEntry) :
    ∀ (fs : FS) (skipped : List String),
      (∀ i, 1 ≤ i → i ≤ skillsDir.length → fs.lookup (skillsDir.take i) = some .dir) →
      isFileNode (fs.lookup []) = false →
      (∀ d ∈ ds, d.isDir = false → (fs.lookup (skillsDir ++ [d.name])).isSome) →
      installLoop skillsDir fs skipped ds = (fs, skipped ++ skillNames ds, none) := by
  induction ds with
  | nil => intro fs skipped _ _ _; simp [installLoop, skillNames]
  | cons d₀ ds ih =>
    intro fs skipped hP1 hP2 hall
    by_cases hd0 : d₀.isDir
    · have hstep : installLoop skillsDir fs skipped (d₀ :: ds) =
          installLoop skillsDir fs skipped ds := by
        simp [installLoop, hd0]
      have hnames : skillNames (d₀ :: ds) = skillNames ds := by
        simp [skillNames, List.filter_cons, hd0]
      rw [hstep, hnames]
      exact ih fs skipped hP1 hP2 fun d hd hdir => hall d (List.mem_cons_of_mem d₀ hd) hdir
    · have hfa := hasFileAncestor_append_singleton_false fs skillsDir d₀.name hP1 hP2
      have hst : fs.stat (skillsDir ++ [d₀.name]) =
          .ok (fs.lookup (skillsDir ++ [d₀.name])) :=
        FS.stat_of_noFileAncestor fs _ hfa
      obtain ⟨vn, hvn⟩ := Option.isSome_iff_exists.mp
        (hall d₀ (List.mem_cons_self d₀ ds) (by simpa using hd0))
      rw [hvn] at hst
      have hstep : installLoop skillsDir fs skipped (d₀ :: ds) =
          installLoop skillsDir fs (skipped ++ [d₀.name]) ds := by
        simp [installLoop, hd0, hst]
      have hnames : skillNames (d₀ :: ds) = d₀.name :: skillNames ds := by
        simp [skillNames, List.filter_cons, hd0]
      rw [hstep, hnames]
      rw [ih fs (skipped ++ [d₀.name]) hP1 hP2
        (fun d hd hdir => hall d (List.mem_cons_of_mem d₀ hd) hdir)]
      simp

theorem installLoop_existing (skillsDir : Path) (ds : List SkillEntry) :
    ∀ (fs : FS) (skipped : List String) (fs₁ : FS) (sk₁ : List String),
      installLoop skillsDir fs skipped ds = (fs₁, sk₁, none) →
      ∀ d ∈ ds, d.isDir = false → ∀ n, fs.lookup (skillsDir ++ [d.name]) = some n →
      fs₁.lookup (skillsDir ++ [d.name]) = some n ∧ d.name ∈ sk₁ := by
  induction ds with
  | nil => intro fs skipped fs₁ sk₁ _ d hd; cases hd
  | cons d₀ ds ih =>
    intro fs skipped fs₁ sk₁ hres d hd hdir n hn
    by_cases hd0 : d₀.isDir
    · have hstep : installLoop skillsDir fs skipped (d₀ :: ds) =
          installLoop skillsDir fs skipped ds := by
        simp [installLoop, hd0]
      rw [hstep] at hres
      rcases List.mem_cons.mp hd with rfl | hmem
      · rw [hdir] at hd0
        cases hd0
      · exact ih fs skipped fs₁ sk₁ hres d hmem hdir n hn
    · rcases hst : fs.stat (skillsDir ++ [d₀.name]) with e | v
      · have hfa := stat_error_hasFA hst
        have hw : fs.writeFile (skillsDir ++ [d₀.name]) d₀.content =
            .error ("open " ++ pathStr (skillsDir ++ [d₀.name]) ++ ": not a directory") := by
          unfold FS.writeFile
          rw [hfa]
          simp
        have hstep : installLoop skillsDir fs skipped (d₀ :: ds) =
            (fs, skipped, some ("failed to write " ++ pathStr (skillsDir ++ [d₀.name]) ++ ": " ++
              ("open " ++ pathStr (skillsDir ++ [d₀.name]) ++ ": not a directory"))) := by
          simp [installLoop, hd0, hst, hw]
        rw [hstep] at hres
        exact Option.noConfusion (congrArg (fun r => r.2.2) hres)
      · cases v with
        | some vn =>
          have hstep : installLoop skillsDir fs skipped (d₀ :: ds) =
              installLoop skillsDir fs (skipped ++ [d₀.name]) ds := by
            simp [installLoop, hd0, hst]
          rw [hstep] at hres
          rcases List.mem_cons.mp hd with rfl | hmem
          · constructor
            · have := installLoop_never_overwrites skillsDir ds fs (skipped ++ [d.name])
                (skillsDir ++ [d.name]) n hn
              rw [hres] at this
              exact this
            · obtain ⟨tail, htail⟩ := installLoop_skipped_prefix skillsDir ds fs (skipped ++ [d.name])
              have hsk : sk₁ = (skipped ++ [d.name]) ++ tail := by
                rw [← htail, hres]
              rw [hsk]
              simp
          · exact ih fs _ fs₁ sk₁ hres d hmem hdir n hn
        | none =>
          rcases hw : fs.writeFile (skillsDir ++ [d₀.name]) d₀.content with e | fs₂
          · have hstep : installLoop skillsDir fs skipped (d₀ :: ds) =
                (fs, skipped, some ("failed to write " ++ pathStr (skillsDir ++ [d₀.name]) ++ ": " ++ e)) := by
              simp [installLoop, hd0, hst, hw]
            rw [hstep] at hres
            exact Option.noConfusion (congrArg (fun r => r.2.2) hres)
          · have hstep : installLoop skillsDir fs skipped (d₀ :: ds) =
                installLoop skillsDir fs₂ skipped ds := by
              simp [installLoop, hd0, hst, hw]
            rw [hstep] at hres
            rcases List.mem_cons.mp hd with rfl | hmem
            · rw [(FS.stat_ok_elim hst).2] at hn
              cases hn
            · have hn₂ : fs₂.lookup (skillsDir ++ [d.name]) = some n := by
                rw [FS.writeFile_ok_insert hw, FS.lookup_insert_ne fs _ _ _ (by
                  intro he
                  rw [he, (FS.stat_ok_elim hst).2] at hn
                  cases hn)]
                exact hn
              exact ih fs₂ skipped fs₁ sk₁ hres d hmem hdir n hn₂

theorem mem_skillNames {ds : List SkillEntry} {d : SkillEntry}
    (hd : d ∈ ds) (hdir : d.isDir = false) : d.name ∈ skillNames ds := by
  unfold skillNames
  exact List.mem_map_of_mem SkillEntry.name (List.mem_filter.mpr ⟨hd, by simp [hdir]⟩)

theorem installLoop_absent (skillsDir : Path) (ds : List SkillEntry) :
    ∀ (fs : FS) (skipped : List String) (fs₁ : FS) (sk₁ : List String),
      installLoop skillsDir fs skipped ds = (fs₁, sk₁, none) →
      (skillNames ds).Nodup →
      ∀ d ∈ ds, d.isDir = false → fs.lookup (skillsDir ++ [d.name]) = none →
      fs₁.lookup (skillsDir ++ [d.name]) = some (.file d.content) := by
  induction ds with
  | nil => intro fs skipped fs₁ sk₁ _ _ d hd; cases hd
  | cons d₀ ds ih =>
    intro fs skipped fs₁ sk₁ hres hnodup d hd hdir hn
    by_cases hd0 : d₀.isDir
    · have hstep : installLoop skillsDir fs skipped (d₀ :: ds) =
          installLoop skillsDir fs skipped ds := by
        simp [installLoop, hd0]
      rw [hstep] at hres
      have hnodup' : (skillNames ds).Nodup := by
        have : skillNames (d₀ :: ds) = skillNames ds := by
          simp [skillNames, List.filter_cons, hd0]
        rw [← this]
        exact hnodup
      rcases List.mem_cons.mp hd with rfl | hmem
      · rw [hdir] at hd0
        cases hd0
      · exact ih fs skipped fs₁ sk₁ hres hnodup' d hmem hdir hn
    · have hnames : skillNames (d₀ :: ds) = d₀.name :: skillNames ds := by
        simp [skillNames, List.filter_cons, hd0]
      have hnodup' : (skillNames ds).Nodup := by
        rw [hnames] at hnodup
        exact hnodup.of_cons
      rcases hst : fs.stat (skillsDir ++ [d₀.name]) with e | v
      · have hfa := stat_error_hasFA hst
        have hw : fs.writeFile (skillsDir ++ [d₀.name]) d₀.content =
            .error ("open " ++ pathStr (skillsDir ++ [d₀.name]) ++ ": not a directory") := by
          unfold FS.writeFile
          rw [hfa]
          simp
        have hstep : installLoop skillsDir fs skipped (d₀ :: ds) =
            (fs, skipped, some ("failed to write " ++ pathStr (skillsDir ++ [d₀.name]) ++ ": " ++
              ("open " ++ pathStr (skillsDir ++ [d₀.name]) ++ ": not a directory"))) := by
          simp [installLoop, hd0, hst, hw]
        rw [hstep] at hres
        exact Option.noConfusion (congrArg (fun r => r.2.2) hres)
      · cases v with
        | some vn =>
          have hstep : installLoop skillsDir fs skipped (d₀ :: ds) =
              installLoop skillsDir fs (skipped ++ [d₀.name]) ds := by
            simp [installLoop, hd0, hst]
          rw [hstep] at hres
          rcases List.mem_cons.mp hd with rfl | hmem
          · rw [(FS.stat_ok_elim hst).2] at hn
            cases hn
          · exact ih fs _ fs₁ sk₁ hres hnodup' d hmem hdir hn
        | none =>
          rcases hw : fs.writeFile (skillsDir ++ [d₀.name]) d₀.content with e | fs₂
          · have hstep : installLoop skillsDir fs skipped (d₀ :: ds) =
                (fs, skipped, some ("failed to write " ++ pathStr (skillsDir ++ [d₀.name]) ++ ": " ++ e)) := by
              simp [installLoop, hd0, hst, hw]
            rw [hstep] at hres
            exact Option.noConfusion (congrArg (fun r => r.2.2) hres)
          · have hstep : installLoop skillsDir fs skipped (d₀ :: ds) =
                installLoop skillsDir fs₂ skipped ds := by
              simp [installLoop, hd0, hst, hw]
            rw [hstep] at hres
            rcases List.mem_cons.mp hd with rfl | hmem
            · have hself : fs₂.lookup (skillsDir ++ [d.name]) = some (.file d.content) := by
                rw [FS.writeFile_ok_insert hw]
                exact FS.lookup_insert_self fs _ _
              have := installLoop_never_overwrites skillsDir ds fs₂ skipped
                (skillsDir ++ [d.name]) (.file d.content) hself
              rw [hres] at this
              exact this
            · have hne : d₀.name ≠ d.name := by
                intro he
                rw [hnames] at hnodup
                have : d₀.name ∉ skillNames ds := (List.nodup_cons.mp hnodup).1
                rw [he] at this
                exact this (mem_skillNames hmem hdir)
              have hn₂ : fs₂.lookup (skillsDir ++ [d.name]) = none := by
                rw [FS.writeFile_ok_insert hw, FS.lookup_insert_ne fs _ _ _ (by
                  intro he
                  have := List.append_cancel_left he
                  exact hne (List.singleton_injective this).symm)]
                exact hn
              exact ih fs₂ skipped fs₁ sk₁ hres hnodup' d hmem hdir hn₂

theorem mem_insertStr (x y : String) (l : List String) :
    y ∈ insertStr x l ↔ y = x ∨ y ∈ l := by
  induction l with
  | nil => simp [insertStr]
  | cons a l ih =>
    unfold insertStr
    by_cases h : x ≤ a
    · simp [h]
    · simp only [if_neg h, List.mem_cons, ih]
      tauto

theorem mem_sortStrings (x : String) (l : List String) :
    x ∈ sortStrings l ↔ x ∈ l := by
  induction l with
  | nil => simp [sortStrings]
  | cons a l ih =>
    unfold sortStrings at ih ⊢
    simp only [List.foldr_cons, mem_insertStr, List.mem_cons, ih]

/-! ## The claims -/

/-- C2 (confirmed): for every configuration with the dev-environment flag
set, the descriptor's mounts array is the extensions-cache volume mount
followed, exactly when chat continuity is enabled, by one bind mount per
registered tool in registry order; hence its length is `1` when
continuity is disabled and `1 + (number of registered tools)` when
enabled; and the mounts are independent of the chosen base-image tag. -/
theorem C2_mounts (data : TemplateData) (hdev : data.IncludeDevContainer = true) :
    ((devContainerFor data).Mounts =
      extensionsCacheMount data.ProjectName ::
        (if data.AIChatContinuity then knownAITools.map toolMountSpec else [])) ∧
    (data.AIChatContinuity = false → (devContainerFor data).Mounts.length = 1) ∧
    (data.AIChatContinuity = true →
      (devContainerFor data).Mounts.length = 1 + knownAITools.length) ∧
    (∀ img : String,
      (devContainerFor { data with DevContainerImage := img }).Mounts =
        (devContainerFor data).Mounts) := by
  refine ⟨?_, ?_, ?_, ?_⟩
  · by_cases hc : data.AIChatContinuity
    · simp [devContainerFor, hc]
    · simp [devContainerFor, hc]
  · intro hc
    simp [devContainerFor, hc]
  · intro hc
    simp [devContainerFor, hc, knownAITools]
  · intro img
    by_cases hc : data.AIChatContinuity
    · simp [devContainerFor, hc]
    · simp [devContainerFor, hc]

/-- C2 witness: the hypothesis holds for the sample dev configuration and
the theorem yields the `1 + N` mounts length there. -/
theorem C2_mounts_witness :
    demoData.IncludeDevContainer = true ∧
    (devContainerFor demoData).Mounts.length = 1 + knownAITools.length :=
  ⟨rfl, (C2_mounts demoData rfl).2.2.1 rfl⟩

/-- C3 (confirmed): with the dev-environment flag set, the serialized
descriptor has a `customizations` field iff the extension list is
non-empty; when empty both the typed field and the serialized field are
absent entirely, and when non-empty the field holds exactly the ordered
extension list. -/
theorem C3_customizations (data : TemplateData) (hdev : data.IncludeDevContainer = true) :
    ((devContainerFor data).toJson.field "customizations" ≠ none ↔
      data.VSCodeExtensions ≠ []) ∧
    (data.VSCodeExtensions = [] →
      (devContainerFor data).Customizations = none ∧
      (devContainerFor data).toJson.field "customizations" = none ∧
      "customizations" ∉ (devContainerFor data).toJson.topKeys) ∧
    (data.VSCodeExtensions ≠ [] →
      (devContainerFor data).Customizations = some data.VSCodeExtensions ∧
      (devContainerFor data).toJson.field "customizations" =
        some (.obj [("vscode", .obj [("extensions",
          .arr (data.VSCodeExtensions.map .str))])])) := by
  rcases hx : data.VSCodeExtensions with _ | ⟨x, xs⟩
  · refine ⟨?_, ?_, ?_⟩
    · by_cases hc : data.AIChatContinuity <;>
        simp [devContainerFor, DevContainer.toJson, Json.field, hc, hx,
          extensionsSymlink]
    · intro _
      by_cases hc : data.AIChatContinuity <;>
        simp [devContainerFor, DevContainer.toJson, Json.field, Json.topKeys, hc, hx,
          extensionsSymlink]
    · intro hne
      exact absurd rfl hne
  · refine ⟨?_, ?_, ?_⟩
    · by_cases hc : data.AIChatContinuity <;>
        simp [devContainerFor, DevContainer.toJson, Json.field, hc, hx,
          extensionsSymlink]
    · intro he
      cases he
    · intro _
      by_cases hc : data.AIChatContinuity <;>
        simp [devContainerFor, DevContainer.toJson, Json.field, hc, hx,
          extensionsSymlink]

/-- C3 witness: for the sample dev configuration (extensions
`["a.b", "c.d"]`) the customizations field holds exactly that list. -/
theorem C3_customizations_witness :
    demoData.IncludeDevContainer = true ∧ demoData.VSCodeExtensions ≠ [] ∧
    (devContainerFor demoData).Customizations = some demoData.VSCodeExtensions :=
  ⟨rfl, by decide, ((C3_customizations demoData rfl).2.2 (by decide)).1⟩

/-- C9 (confirmed, against the spec-modelled template set `seedRender`): a
`LICENSE` file is produced iff the license selector is `"MIT"` or
`"Apache-2.0"`; any other selector (including `"none"` and the empty
string) leaves the state untouched and reports no error, while the two
supported selectors render the corresponding license template, whose
output contains the project name and the configured year. -/
theorem C9_license (fs : FS) (dir : Path) (data : TemplateData) :
    (data.License ≠ "MIT" → data.License ≠ "Apache-2.0" →
      scaffoldLicense seedRender fs dir data = (fs, none)) ∧
    (data.License = "MIT" → ∀ fs', scaffoldLicense seedRender fs dir data = (fs', none) →
      fs'.lookup (dir ++ ["LICENSE"]) = some (.file (seedRender "LICENSE-MIT.tmpl" data)) ∧
      strContains (seedRender "LICENSE-MIT.tmpl" data) data.ProjectName ∧
      strContains (seedRender "LICENSE-MIT.tmpl" data) (toString data.Year)) ∧
    (data.License = "Apache-2.0" → ∀ fs',
      scaffoldLicense seedRender fs dir data = (fs', none) →
      fs'.lookup (dir ++ ["LICENSE"]) = some (.file (seedRender "LICENSE-Apache.tmpl" data)) ∧
      strContains (seedRender "LICENSE-Apache.tmpl" data) data.ProjectName ∧
      strContains (seedRender "LICENSE-Apache.tmpl" data) (toString data.Year)) := by
  have hself : ∀ s : String, strContains s s := fun s => List.infix_refl s.data
  refine ⟨?_, ?_, ?_⟩
  · intro h1 h2
    unfold scaffoldLicense
    split
    · rename_i heq
      exact absurd heq h1
    · rename_i heq
      exact absurd heq h2
    · rfl
  · intro hl fs' hok
    unfold scaffoldLicense at hok
    rw [hl] at hok
    simp only at hok
    rcases hw : fs.writeFile (dir ++ ["LICENSE"]) (seedRender "LICENSE-MIT.tmpl" data)
      with e | fs₂
    · rw [hw] at hok
      exact Option.noConfusion (congrArg Prod.snd hok)
    · rw [hw] at hok
      have hfs : fs' = fs₂ := (congrArg Prod.fst hok).symm
      refine ⟨?_, ?_, ?_⟩
      · rw [hfs, FS.writeFile_ok_insert hw]
        exact FS.lookup_insert_self fs _ _
      · exact strContains_of_chunk _
          ("MIT License\n\nCopyright (c) " ++ toString data.Year ++ " ")
          data.ProjectName
          "\n\nPermission is hereby granted, free of charge, to any person obtaining a copy\nof this software and associated documentation files.\n"
          data.ProjectName (by simp [seedRender, String.append_assoc]) (hself _)
      · exact strContains_of_chunk _
          "MIT License\n\nCopyright (c) "
          (toString data.Year)
          (" " ++ data.ProjectName ++
            "\n\nPermission is hereby granted, free of charge, to any person obtaining a copy\nof this software and associated documentation files.\n")
          (toString data.Year) (by simp [seedRender, String.append_assoc]) (hself _)
  · intro hl fs' hok
    unfold scaffoldLicense at hok
    rw [hl] at hok
    simp only at hok
    rcases hw : fs.writeFile (dir ++ ["LICENSE"]) (seedRender "LICENSE-Apache.tmpl" data)
      with e | fs₂
    · rw [hw] at hok
      exact Option.noConfusion (congrArg Prod.snd hok)
    · rw [hw] at hok
      have hfs : fs' = fs₂ := (congrArg Prod.fst hok).symm
      refine ⟨?_, ?_, ?_⟩
      · rw [hfs, FS.writeFile_ok_insert hw]
        exact FS.lookup_insert_self fs _ _
      · exact strContains_of_chunk _
          ("Apache License\nVersion 2.0, January 2004\n\nCopyright " ++
            toString data.Year ++ " ")
          data.ProjectName
          "\n\nLicensed under the Apache License, Version 2.0.\n"
          data.ProjectName (by simp [seedRender, String.append_assoc]) (hself _)
      · exact strContains_of_chunk _
          "Apache License\nVersion 2.0, January 2004\n\nCopyright "
          (toString data.Year)
          (" " ++ data.ProjectName ++ "\n\nLicensed under the Apache License, Version 2.0.\n")
          (toString data.Year) (by simp [seedRender, String.append_assoc]) (hself _)

/-- C9 witness: a successful `"MIT"` run on a concrete state, plus the
no-op for the `"none"` selector. -/
theorem C9_license_witness :
    scaffoldLicense seedRender ⟨[([], Node.dir), (["d"], Node.dir)]⟩ ["d"] plainData =
      (⟨[([], Node.dir), (["d"], Node.dir)]⟩, none) ∧
    strContains (seedRender "LICENSE-MIT.tmpl" demoData) demoData.ProjectName :=
  ⟨(C9_license ⟨[([], Node.dir), (["d"], Node.dir)]⟩ ["d"] plainData).1
      (by decide) (by decide),
   ((C9_license ⟨[([], Node.dir), (["d"], Node.dir)]⟩ ["d"] demoData).2.1 rfl
      ((scaffoldLicense seedRender ⟨[([], Node.dir), (["d"], Node.dir)]⟩ ["d"] demoData).1)
      rfl).2.1⟩

/-- C5 (confirmed): for every existing, non-empty destination directory,
`prepareDirectory` with `allowNonEmpty = false` fails with a message
containing "not empty" and leaves the state untouched, and with
`allowNonEmpty = true` it succeeds, also leaving the state untouched. -/
theorem C5_nonempty_guard (fs : FS) (dir : Path)
    (hstat : fs.stat dir = .ok (some .dir)) (hne : 0 < fs.childCount dir) :
    (∃ e, prepareDirectory fs dir false = (fs, some e) ∧ strContains e "not empty") ∧
    prepareDirectory fs dir true = (fs, none) := by
  constructor
  · refine ⟨"directory " ++ pathStr dir ++ " is not empty (contains " ++
      toString (fs.childCount dir) ++ " items)", ?_, ?_⟩
    · unfold prepareDirectory
      simp only [hstat]
      rw [if_pos ⟨hne, by trivial⟩]
    · exact strContains_of_chunk _ ("directory " ++ pathStr dir)
        " is not empty (contains "
        (toString (fs.childCount dir) ++ " items)") "not empty"
        (by simp [String.append_assoc]) (by decide)
  · unfold prepareDirectory
    simp only [hstat]
    rw [if_neg (by simp)]

/-- C5 witness: a destination with one pre-existing entry. -/
theorem C5_nonempty_guard_witness :
    (∃ e, prepareDirectory ⟨[([], Node.dir), (["d"], Node.dir), (["d", "old.txt"], Node.file "h")]⟩
        ["d"] false =
        (⟨[([], Node.dir), (["d"], Node.dir), (["d", "old.txt"], Node.file "h")]⟩, some e) ∧
      strContains e "not empty") ∧
    prepareDirectory ⟨[([], Node.dir), (["d"], Node.dir), (["d", "old.txt"], Node.file "h")]⟩
        ["d"] true =
      (⟨[([], Node.dir), (["d"], Node.dir), (["d", "old.txt"], Node.file "h")]⟩, none) :=
  C5_nonempty_guard _ ["d"] (by decide) (by decide)

/-- C6 (corrected): the amended behavior of `prepareDirectory` on an
absent or non-directory destination.  (i) If the destination and its
parent are both absent, the error message contains "parent directory".
(ii) If the destination is absent and the parent is a directory, the
destination is created (and these are the only creation circumstances,
conjunct (iv)).  (iii) If the destination is absent because its parent
exists as a regular file, the failure is the stat failure
("failed to check directory ...", carrying the `ENOTDIR` text
"not a directory"), not the "parent directory" message claimed.  (v) A
destination that exists as a regular file fails with a message containing
"not a directory". -/
theorem C6_amended (fs : FS) (dir : Path) (a : Bool) :
    (fs.stat dir = .ok none → fs.stat dir.dropLast = .ok none →
      ∃ e, prepareDirectory fs dir a = (fs, some e) ∧ strContains e "parent directory") ∧
    (fs.stat dir = .ok none → fs.stat dir.dropLast = .ok (some .dir) →
      prepareDirectory fs dir a = (fs.insert dir .dir, none)) ∧
    (∀ c, dir ≠ [] → fs.lookup dir.dropLast = some (.file c) →
      prepareDirectory fs dir a =
        (fs, some ("failed to check directory " ++ pathStr dir ++ ": " ++
          ("stat " ++ pathStr dir ++ ": not a directory")))) ∧
    (∀ fs', fs.lookup dir = none → prepareDirectory fs dir a = (fs', none) →
      fs.lookup dir.dropLast = some .dir) ∧
    (∀ c, fs.stat dir = .ok (some (.file c)) →
      ∃ e, prepareDirectory fs dir a = (fs, some e) ∧ strContains e "not a directory") := by
  refine ⟨?_, ?_, ?_, ?_, ?_⟩
  · intro hs hp
    refine ⟨"parent directory " ++ pathStr dir.dropLast ++
      " does not exist — please create it first", ?_, ?_⟩
    · unfold prepareDirectory
      simp only [hs, hp]
    · exact strContains_of_chunk _ "" "parent directory "
        (pathStr dir.dropLast ++ " does not exist — please create it first")
        "parent directory" (by simp [String.append_assoc]) (by decide)
  · intro hs hp
    unfold prepareDirectory
    simp only [hs, hp]
    have hmk : fs.mkdir dir = .ok (fs.insert dir .dir) := by
      unfold FS.mkdir
      rw [if_neg (by rw [(FS.stat_ok_elim hs).2]; simp), (FS.stat_ok_elim hp).2]
    rw [hmk]
  · intro c hdir hpar
    have hfa : fs.hasFileAncestor dir = true := by
      unfold FS.hasFileAncestor
      rw [List.any_eq_true]
      refine ⟨dir.length - 1, ?_, ?_⟩
      · rw [List.mem_range]
        have : dir.length ≠ 0 := fun h0 => hdir (List.length_eq_zero.mp h0)
        omega
      · rw [← List.dropLast_eq_take, hpar]  -- hmm direction of dropLast_eq_take
        rfl
    have hstat : fs.stat dir = .error ("stat " ++ pathStr dir ++ ": not a directory") := by
      unfold FS.stat
      rw [hfa]
      simp
    unfold prepareDirectory
    simp only [hstat]
  · intro fs' habs hok
    have hfa : fs.hasFileAncestor dir = false := by
      by_contra hfa
      have hfa' : fs.hasFileAncestor dir = true := by
        cases h : fs.hasFileAncestor dir
        · exact absurd h hfa
        · rfl
      unfold prepareDirectory FS.stat at hok
      rw [hfa'] at hok
      simp only [if_pos] at hok
      exact Option.noConfusion (congrArg Prod.snd hok)
    have hs : fs.stat dir = .ok none := by
      rw [FS.stat_of_noFileAncestor fs dir hfa, habs]
    unfold prepareDirectory at hok
    rw [hs] at hok
    simp only at hok
    rcases hp : fs.stat dir.dropLast with e | v
    · rw [hp] at hok
      simp only at hok
      rcases hm : fs.mkdir dir with e' | fsm
      · rw [hm] at hok
        exact Option.noConfusion (congrArg Prod.snd hok)
      · unfold FS.mkdir at hm
        split at hm
        · cases hm
        · split at hm
          · rename_i hpar
            exact hpar
          · cases hm
          · cases hm
    · cases v with
      | none =>
        rw [hp] at hok
        simp only at hok
        exact Option.noConfusion (congrArg Prod.snd hok)
      | some n =>
        rw [hp] at hok
        simp only at hok
        rcases hm : fs.mkdir dir with e' | fsm
        · rw [hm] at hok
          exact Option.noConfusion (congrArg Prod.snd hok)
        · unfold FS.mkdir at hm
          split at hm
          · cases hm
          · split at hm
            · rename_i hpar
              exact hpar
            · cases hm
            · cases hm
  · intro c hs
    refine ⟨pathStr dir ++ " exists but is not a directory", ?_, ?_⟩
    · unfold prepareDirectory
      simp only [hs]
    · exact strContains_of_chunk _ (pathStr dir) " exists but is not a directory" ""
        "not a directory" (by simp [String.append_assoc]) (by decide)

/-- C6 witness: (i) missing parent yields the "parent directory" message;
(ii) an absent destination under an existing parent directory is
created; (v) a regular-file destination yields "not a directory". -/
theorem C6_amended_witness :
    (∃ e, prepareDirectory rootFS ["a", "b"] false = (rootFS, some e) ∧
      strContains e "parent directory") ∧
    prepareDirectory rootFS ["a"] false = (rootFS.insert ["a"] .dir, none) ∧
    (∃ e, prepareDirectory ⟨[([], Node.dir), (["f"], Node.file "x")]⟩ ["f"] false =
      (⟨[([], Node.dir), (["f"], Node.file "x")]⟩, some e) ∧
      strContains e "not a directory") :=
  ⟨(C6_amended rootFS ["a", "b"] false).1 (by decide) (by decide),
   (C6_amended rootFS ["a"] false).2.1 (by decide) (by decide),
   (C6_amended ⟨[([], Node.dir), (["f"], Node.file "x")]⟩ ["f"] false).2.2.2.2 "x" (by decide)⟩

/-- C6 counterexample: the claim as stated is false.  With parent `p`
existing as a regular file and destination `p/proj`, `prepareDirectory`
fails with "failed to check directory p/proj: stat p/proj: not a
directory", whose text does not contain "parent directory". -/
theorem C6_counterexample : ¬ C6Claim := by
  intro h
  obtain ⟨h1, _, _⟩ := h
  obtain ⟨e, heq, hcont⟩ :=
    h1 ⟨[([], Node.dir), (["p"], Node.file "x")]⟩ ["p", "proj"] false (by decide)
      (Or.inr ⟨"x", by decide⟩)
  have hmsg : prepareDirectory ⟨[([], Node.dir), (["p"], Node.file "x")]⟩ ["p", "proj"] false =
      (⟨[([], Node.dir), (["p"], Node.file "x")]⟩,
        some "failed to check directory p/proj: stat p/proj: not a directory") := by decide
  rw [hmsg] at heq
  have he : "failed to check directory p/proj: stat p/proj: not a directory" = e :=
    Option.some.inj (congrArg Prod.snd heq)
  rw [← he] at hcont
  exact absurd hcont (by decide)

/-- C10 (confirmed): when the skill installer is invoked on a destination
that does not exist (including the `ENOTDIR` case) or that exists but is
not a directory, it returns an error and the filesystem state is
unchanged: no file or directory is created. -/
theorem C10_skills_guard (docs : List SkillEntry) (fs : FS) (dir : Path) :
    (fs.stat dir = .ok none →
      installSkillsWithReport docs fs dir =
        (fs, ⟨[]⟩, some ("target directory " ++ pathStr dir ++ " does not exist"))) ∧
    (∀ e, fs.stat dir = .error e →
      installSkillsWithReport docs fs dir =
        (fs, ⟨[]⟩, some ("target directory " ++ pathStr dir ++ " does not exist"))) ∧
    (∀ c, fs.stat dir = .ok (some (.file c)) →
      installSkillsWithReport docs fs dir =
        (fs, ⟨[]⟩, some (pathStr dir ++ " is not a directory"))) := by
  refine ⟨?_, ?_, ?_⟩
  · intro hs
    unfold installSkillsWithReport
    simp only [hs]
  · intro e hs
    unfold installSkillsWithReport
    simp only [hs]
  · intro c hs
    unfold installSkillsWithReport
    simp only [hs]

/-- C10 witness: a missing destination and a regular-file destination,
with a non-trivial embedded registry. -/
theorem C10_skills_guard_witness :
    installSkillsWithReport [⟨"dev.md", false, "doc"⟩] rootFS ["gone"] =
      (rootFS, ⟨[]⟩, some ("target directory " ++ pathStr ["gone"] ++ " does not exist")) ∧
    installSkillsWithReport [⟨"dev.md", false, "doc"⟩]
        ⟨[([], Node.dir), (["f"], Node.file "x")]⟩ ["f"] =
      (⟨[([], Node.dir), (["f"], Node.file "x")]⟩, ⟨[]⟩,
        some (pathStr ["f"] ++ " is not a directory")) :=
  ⟨(C10_skills_guard [⟨"dev.md", false, "doc"⟩] rootFS ["gone"]).1 (by decide),
   (C10_skills_guard [⟨"dev.md", false, "doc"⟩]
      ⟨[([], Node.dir), (["f"], Node.file "x")]⟩ ["f"]).2.2 "x" (by decide)⟩

/-- C7 (confirmed): with the dev-environment flag set, the descriptor's
post-create command is the cache-symlink-and-initialize command exactly
when chat continuity is disabled and `"bash .devcontainer/setup.sh"` when
enabled; the setup script file is written iff continuity is enabled (on a
successful run it holds `generateSetupScript`'s output, and with
continuity disabled the path is untouched even on failed runs); and the
script starts with a shebang line, contains the
cache-symlink-and-initialize command, and contains one existence-guarded
block per registered tool. -/
theorem C7_postcreate_setup (render : String → TemplateData → String) (currentYear : Int)
    (fs : FS) (dir : Path) (data : TemplateData) (allow : List Bool)
    (hdev : data.IncludeDevContainer = true) :
    (data.AIChatContinuity = false →
      (devContainerFor data).PostCreateCommand = extensionsSymlink) ∧
    (data.AIChatContinuity = true →
      (devContainerFor data).PostCreateCommand = "bash .devcontainer/setup.sh") ∧
    (data.AIChatContinuity = true → ∀ fs',
      Scaffold render currentYear fs dir data allow = (fs', none) →
      fs'.lookup (dir ++ [".devcontainer", "setup.sh"]) =
        some (.file (generateSetupScript extensionsSymlink))) ∧
    (data.AIChatContinuity = false → ∀ fs' e,
      Scaffold render currentYear fs dir data allow = (fs', e) →
      fs'.lookup (dir ++ [".devcontainer", "setup.sh"]) =
        fs.lookup (dir ++ [".devcontainer", "setup.sh"])) ∧
    strStartsWith (generateSetupScript extensionsSymlink) "#!/bin/bash\n" ∧
    strContains (generateSetupScript extensionsSymlink) extensionsSymlink ∧
    (∀ t ∈ knownAITools, strContains (generateSetupScript extensionsSymlink) (toolBlock t)) := by
  refine ⟨?_, ?_, ?_, ?_, ?_, ?_, ?_⟩
  · intro hc
    simp [devContainerFor, hc]
  · intro hc
    simp [devContainerFor, hc]
  · intro hc fs' hok
    unfold Scaffold at hok
    obtain ⟨fs₁, hp, hok⟩ := andThen_eq_ok hok
    obtain ⟨fs₂, hr, hok⟩ := andThen_eq_ok hok
    obtain ⟨fs₃, hl, hok⟩ := andThen_eq_ok hok
    rw [if_pos (by rw [(yearAdjust_fields data currentYear).1]; exact hdev)] at hok
    obtain ⟨fs₄, hdc, hok⟩ := andThen_eq_ok hok
    have hsetup : fs₄.lookup (dir ++ [".devcontainer", "setup.sh"]) =
        some (.file (generateSetupScript extensionsSymlink)) :=
      scaffoldDevContainer_ok_setup render fs₃ dir _ fs₄
        (by rw [(yearAdjust_fields data currentYear).2.1]; exact hc) hdc
    by_cases hvs : (if data.Year = 0 then { data with Year := currentYear } else data).IncludeDevContainer ∧
        0 < (if data.Year = 0 then { data with Year := currentYear } else data).VSCodeExtensions.length
    · rw [if_pos hvs] at hok
      have := writeVSCodeExtensions_lookup_ne fs₄ dir
        (if data.Year = 0 then { data with Year := currentYear } else data).VSCodeExtensions
        (dir ++ [".devcontainer", "setup.sh"])
        (by
          intro he
          have h2 := List.append_cancel_left he
          exact absurd h2 (by decide))
        (by simp)
      rw [hok] at this
      rw [this]
      exact hsetup
    · rw [if_neg hvs] at hok
      cases hok
      exact hsetup
  · intro hc fs' e hok
    have key := Scaffold_nocont_setup_untouched render currentYear fs dir data allow hc
    rw [hok] at key
    exact key
  · decide
  · exact strContains_of_chunk _
      ("#!/bin/bash\n" ++
       "# Dev container setup — created by seed\n" ++
       "# Symlinks VS Code extensions cache and auto-detects AI coding tools,\n" ++
       "# symlinking host project state into the container so conversations persist.\n" ++
       "#\n" ++
       "# HOST_WORKSPACE is set via containerEnv in devcontainer.json\n" ++
       "# and resolved from $\x7blocalWorkspaceFolder\x7d at container creation time.\n\n" ++
       "# Symlink cached extensions into the path VS Code expects\n")
      extensionsSymlink
      ("\n\n" ++
       "HOST_KEY=$(echo \"$HOST_WORKSPACE\" | tr \x27/\x27 \x27-\x27)\n" ++
       "CONTAINER_KEY=$(pwd | tr \x27/\x27 \x27-\x27)\n\n" ++
       String.join (knownAITools.map toolBlock))
      extensionsSymlink
      (by simp [generateSetupScript, String.append_assoc])
      (List.infix_refl _)
  · intro t ht
    simp only [knownAITools, List.mem_cons, List.mem_singleton] at ht
    rcases ht with rfl | rfl | ht
    · exact strContains_of_chunk _
        ("#!/bin/bash\n" ++
         "# Dev container setup — created by seed\n" ++
         "# Symlinks VS Code extensions cache and auto-detects AI coding tools,\n" ++
         "# symlinking host project state into the container so conversations persist.\n" ++
         "#\n" ++
         "# HOST_WORKSPACE is set via containerEnv in devcontainer.json\n" ++
         "# and resolved from $\x7blocalWorkspaceFolder\x7d at container creation time.\n\n" ++
         "# Symlink cached extensions into the path VS Code expects\n" ++
         extensionsSymlink ++ "\n\n" ++
         "HOST_KEY=$(echo \"$HOST_WORKSPACE\" | tr \x27/\x27 \x27-\x27)\n" ++
         "CONTAINER_KEY=$(pwd | tr \x27/\x27 \x27-\x27)\n\n")
        (toolBlock ⟨"Claude Code", ".claude"⟩)
        (toolBlock ⟨"Codex", ".codex"⟩)
        (toolBlock ⟨"Claude Code", ".claude"⟩)
        (by simp [generateSetupScript, String.join, knownAITools, String.append_assoc])
        (List.infix_refl _)
    · exact strContains_of_chunk _
        ("#!/bin/bash\n" ++
         "# Dev container setup — created by seed\n" ++
         "# Symlinks VS Code extensions cache and auto-detects AI coding tools,\n" ++
         "# symlinking host project state into the container so conversations persist.\n" ++
         "#\n" ++
         "# HOST_WORKSPACE is set via containerEnv in devcontainer.json\n" ++
         "# and resolved from $\x7blocalWorkspaceFolder\x7d at container creation time.\n\n" ++
         "# Symlink cached extensions into the path VS Code expects\n" ++
         extensionsSymlink ++ "\n\n" ++
         "HOST_KEY=$(echo \"$HOST_WORKSPACE\" | tr \x27/\x27 \x27-\x27)\n" ++
         "CONTAINER_KEY=$(pwd | tr \x27/\x27 \x27-\x27)\n\n" ++
         toolBlock ⟨"Claude Code", ".claude"⟩)
        (toolBlock ⟨"Codex", ".codex"⟩)
        ""
        (toolBlock ⟨"Codex", ".codex"⟩)
        (by simp [generateSetupScript, String.join, knownAITools, String.append_assoc])
        (List.infix_refl _)
    · cases ht

/-- C7 witness: a successful scaffold with continuity enabled writes the
setup script, and the theorem's hypotheses hold at that input. -/
theorem C7_postcreate_setup_witness :
    demoData.IncludeDevContainer = true ∧ demoData.AIChatContinuity = true ∧
    Scaffold seedRender 2025 rootFS ["proj"] demoData [] =
      ((Scaffold seedRender 2025 rootFS ["proj"] demoData []).1, none) ∧
    ((Scaffold seedRender 2025 rootFS ["proj"] demoData []).1).lookup
        (["proj"] ++ [".devcontainer", "setup.sh"]) =
      some (.file (generateSetupScript extensionsSymlink)) := by
  have h2 : (Scaffold seedRender 2025 rootFS ["proj"] demoData []).2 = none := by decide
  have hscaf : Scaffold seedRender 2025 rootFS ["proj"] demoData [] =
      ((Scaffold seedRender 2025 rootFS ["proj"] demoData []).1, none) := Prod.ext rfl h2
  exact ⟨rfl, rfl, hscaf,
    (C7_postcreate_setup seedRender 2025 rootFS ["proj"] demoData [] rfl).2.2.1 rfl
      ((Scaffold seedRender 2025 rootFS ["proj"] demoData []).1) hscaf⟩

/-- C8 (confirmed): `.vscode/extensions.json` is written iff the
dev-environment flag is set and the extension list is non-empty — on a
successful such run it holds the serialized recommendations object whose
`recommendations` array is exactly the configured extension list in
order, and under any other configuration the path is untouched (even on
failed runs). -/
theorem C8_extensions_manifest (render : String → TemplateData → String)
    (currentYear : Int) (fs : FS) (dir : Path) (data : TemplateData)
    (allow : List Bool) :
    (data.IncludeDevContainer = true → data.VSCodeExtensions ≠ [] → ∀ fs',
      Scaffold render currentYear fs dir data allow = (fs', none) →
      fs'.lookup (dir ++ [".vscode", "extensions.json"]) =
        some (.file ((VSCodeWorkspaceExtensions.mk data.VSCodeExtensions).toJson.render 0
          ++ "\n")) ∧
      (VSCodeWorkspaceExtensions.mk data.VSCodeExtensions).toJson =
        .obj [("recommendations", .arr (data.VSCodeExtensions.map .str))]) ∧
    (¬(data.IncludeDevContainer = true ∧ data.VSCodeExtensions ≠ []) → ∀ fs' e,
      Scaffold render currentYear fs dir data allow = (fs', e) →
      fs'.lookup (dir ++ [".vscode", "extensions.json"]) =
        fs.lookup (dir ++ [".vscode", "extensions.json"])) := by
  constructor
  · intro hdev hne fs' hok
    unfold Scaffold at hok
    obtain ⟨fs₁, hp, hok⟩ := andThen_eq_ok hok
    obtain ⟨fs₂, hr, hok⟩ := andThen_eq_ok hok
    obtain ⟨fs₃, hl, hok⟩ := andThen_eq_ok hok
    rw [if_pos (by rw [(yearAdjust_fields data currentYear).1]; exact hdev)] at hok
    obtain ⟨fs₄, hdc, hok⟩ := andThen_eq_ok hok
    have hx : (if data.Year = 0 then { data with Year := currentYear } else data).VSCodeExtensions =
        data.VSCodeExtensions := (yearAdjust_fields data currentYear).2.2
    rw [if_pos ⟨by rw [(yearAdjust_fields data currentYear).1]; exact hdev,
      by rw [hx]; exact List.length_pos.mpr hne⟩] at hok
    have := writeVSCodeExtensions_ok_lookup fs₄ dir _ fs' hok
    rw [hx] at this
    exact ⟨this, rfl⟩
  · intro hno fs' e hok
    have key := Scaffold_ext_manifest_untouched render currentYear fs dir data allow hno
    rw [hok] at key
    exact key

/-- C8 witness: a successful dev-environment scaffold with extensions
`["a.b", "c.d"]` produces the manifest with exactly that ordered list. -/
theorem C8_extensions_manifest_witness :
    demoData.IncludeDevContainer = true ∧ demoData.VSCodeExtensions ≠ [] ∧
    ((Scaffold seedRender 2025 rootFS ["app"] demoData []).1).lookup
        (["app"] ++ [".vscode", "extensions.json"]) =
      some (.file ((VSCodeWorkspaceExtensions.mk demoData.VSCodeExtensions).toJson.render 0
        ++ "\n")) := by
  have h2 : (Scaffold seedRender 2025 rootFS ["app"] demoData []).2 = none := by decide
  have hscaf : Scaffold seedRender 2025 rootFS ["app"] demoData [] =
      ((Scaffold seedRender 2025 rootFS ["app"] demoData []).1, none) := Prod.ext rfl h2
  exact ⟨rfl, by decide,
    ((C8_extensions_manifest seedRender 2025 rootFS ["app"] demoData []).1 rfl (by decide)
      ((Scaffold seedRender 2025 rootFS ["app"] demoData []).1) hscaf).1⟩

/-- C1 counterexample: the claim as stated is false.  Scaffolding with
the allow-non-empty override into a directory that already contains a
file named `README.md` truncates and rewrites that file: with a template
set rendering `"seed"`, the pre-existing content `"old"` is replaced. -/
theorem C1_counterexample : ¬ C1Claim := by
  intro h
  have := h (fun _ _ => "seed") 2025
    ⟨[([], Node.dir), (["d"], Node.dir), (["d", "README.md"], Node.file "old")]⟩
    ["d"] plainData [true] ["d", "README.md"] "old" (by decide) (by decide)
  exact absurd this (by decide)

/-- C1 (corrected, amended): `Scaffold` never changes the content of a
pre-existing file whose path is outside its fixed set of write targets
(`scaffoldFilePaths`), under any configuration, override flag, or
outcome; pre-existing files *at* the scaffold's own output names can be
overwritten when the override is set, which is what refutes the claim as
stated. -/
theorem C1_amended (render : String → TemplateData → String) (cy : Int) (fs : FS)
    (dir : Path) (data : TemplateData) (allow : List Bool) (p : Path) (c : String)
    (hc : fs.lookup p = some (.file c)) (hp : p ∉ scaffoldFilePaths dir) :
    ((Scaffold render cy fs dir data allow).1).lookup p = some (.file c) := by
  simp only [scaffoldFilePaths, List.mem_cons, List.not_mem_nil, or_false, not_or] at hp
  obtain ⟨hp1, hp2, hp3, hp4, hp5, hp6, hp7, hp8, hp9, hp10, hp11, hp12⟩ := hp
  have hts : ∀ t ∈ coreTemplates, p ≠ dir ++ [stripTmpl t] := by
    intro t ht
    simp only [coreTemplates, List.mem_cons, List.not_mem_nil, or_false] at ht
    rcases ht with rfl | rfl | rfl | rfl | rfl | rfl | rfl
    · rw [show stripTmpl "README.md.tmpl" = "README.md" from by decide]
      exact hp1
    · rw [show stripTmpl "AGENTS.md.tmpl" = "AGENTS.md" from by decide]
      exact hp2
    · rw [show stripTmpl "DECISIONS.md.tmpl" = "DECISIONS.md" from by decide]
      exact hp3
    · rw [show stripTmpl "TODO.md.tmpl" = "TODO.md" from by decide]
      exact hp4
    · rw [show stripTmpl "LEARNINGS.md.tmpl" = "LEARNINGS.md" from by decide]
      exact hp5
    · rw [show stripTmpl ".gitignore.tmpl" = ".gitignore" from by decide]
      exact hp6
    · rw [show stripTmpl ".editorconfig.tmpl" = ".editorconfig" from by decide]
      exact hp7
  unfold Scaffold
  generalize (match allow with | [] => false | b :: _ => b : Bool) = ne
  rcases hpd : prepareDirectory fs dir ne with ⟨fs₁, e₁⟩
  have hfs₁ : fs₁.lookup p = some (.file c) := by
    have := prepareDirectory_preserves_file fs dir ne p c hc
    rw [hpd] at this
    exact this
  cases e₁ with
  | some e =>
    simp only [hpd, andThen]
    exact hfs₁
  | none =>
    simp only [hpd, andThen]
    rcases hr : renderTemplates render dir
        (if data.Year = 0 then { data with Year := cy } else data) fs₁ coreTemplates
      with ⟨fs₂, e₂⟩
    have hfs₂ : fs₂.lookup p = some (.file c) := by
      have := renderTemplates_lookup_ne render dir
        (if data.Year = 0 then { data with Year := cy } else data) p coreTemplates fs₁ hts
      rw [hr] at this
      rw [this]
      exact hfs₁
    cases e₂ with
    | some e =>
      simp only [andThen]
      exact hfs₂
    | none =>
      simp only [andThen]
      rcases hl : scaffoldLicense render fs₂ dir
          (if data.Year = 0 then { data with Year := cy } else data) with ⟨fs₃, e₃⟩
      have hfs₃ : fs₃.lookup p = some (.file c) := by
        have := scaffoldLicense_lookup_ne render fs₂ dir
          (if data.Year = 0 then { data with Year := cy } else data) p hp8
        rw [hl] at this
        rw [this]
        exact hfs₂
      cases e₃ with
      | some e =>
        simp only [andThen]
        exact hfs₃
      | none =>
        simp only [andThen]
        rcases hdc : (if (if data.Year = 0 then { data with Year := cy } else data).IncludeDevContainer
            then scaffoldDevContainer render fs₃ dir
              (if data.Year = 0 then { data with Year := cy } else data)
            else (fs₃, none)) with ⟨fs₄, e₄⟩
        have hfs₄ : fs₄.lookup p = some (.file c) := by
          by_cases hdev : (if data.Year = 0 then { data with Year := cy } else data).IncludeDevContainer
          · rw [if_pos hdev] at hdc
            have := scaffoldDevContainer_preserves_file render fs₃ dir
              (if data.Year = 0 then { data with Year := cy } else data) p c hfs₃ hp9 hp10 hp11
            rw [hdc] at this
            exact this
          · rw [if_neg hdev] at hdc
            cases hdc
            exact hfs₃
        rw [hdc]
        cases e₄ with
        | some e =>
          simp only [andThen]
          exact hfs₄
        | none =>
          simp only [andThen]
          by_cases hvs : (if data.Year = 0 then { data with Year := cy } else data).IncludeDevContainer ∧
              0 < (if data.Year = 0 then { data with Year := cy } else data).VSCodeExtensions.length
          · rw [if_pos hvs]
            exact writeVSCodeExtensions_preserves_file fs₄ dir _ p c hfs₄ hp12
          · rw [if_neg hvs]
            exact hfs₄

/-- C1 witness: a full dev-environment scaffold with the override flag
into a non-empty directory leaves the unrelated pre-existing file
`d/notes.txt` byte-identical. -/
theorem C1_amended_witness :
    (FS.lookup ⟨[([], Node.dir), (["d"], Node.dir), (["d", "notes.txt"], Node.file "keep me")]⟩
        ["d", "notes.txt"] = some (.file "keep me")) ∧
    (["d", "notes.txt"] ∉ scaffoldFilePaths ["d"]) ∧
    ((Scaffold seedRender 2025
        ⟨[([], Node.dir), (["d"], Node.dir), (["d", "notes.txt"], Node.file "keep me")]⟩
        ["d"] demoData [true]).1).lookup ["d", "notes.txt"] = some (.file "keep me") :=
  ⟨by decide, by decide,
   C1_amended seedRender 2025
     ⟨[([], Node.dir), (["d"], Node.dir), (["d", "notes.txt"], Node.file "keep me")]⟩
     ["d"] demoData [true] ["d", "notes.txt"] "keep me" (by decide) (by decide)⟩

theorem root_not_file_of_stat_dir {fs : FS} {dir : Path}
    (h : fs.stat dir = .ok (some .dir)) : isFileNode (fs.lookup []) = false := by
  obtain ⟨hfa, hl⟩ := FS.stat_ok_elim h
  cases hdir : dir with
  | nil =>
    rw [hdir] at hl
    rw [hl]
    rfl
  | cons a l =>
    rw [Bool.eq_false_iff]
    intro hfile
    have : fs.hasFileAncestor dir = true := by
      unfold FS.hasFileAncestor
      rw [List.any_eq_true]
      refine ⟨0, ?_, ?_⟩
      · rw [List.mem_range, hdir]
        simp
      · rw [List.take_zero]
        exact hfile
    rw [this] at hfa
    cases hfa

/-- C4 (confirmed): a second install on the same destination with no
intervening edits leaves the filesystem identical and returns a skipped
list equal to the sorted list of all embedded skill-document names; and
in any successful run, a file already existing at a destination name is
recorded as skipped and left untouched, while a missing one is copied
verbatim. -/
theorem C4_idempotent (docs : List SkillEntry) (fs : FS) (dir : Path)
    (fs₁ : FS) (r₁ : SkillsInstallReport)
    (hnodup : (skillNames docs).Nodup)
    (h1 : installSkillsWithReport docs fs dir = (fs₁, r₁, none)) :
    installSkillsWithReport docs fs₁ dir = (fs₁, ⟨sortStrings (skillNames docs)⟩, none) ∧
    (∀ d ∈ docs, d.isDir = false →
      (∀ n, fs.lookup (dir ++ ["skills", d.name]) = some n →
        fs₁.lookup (dir ++ ["skills", d.name]) = some n ∧ d.name ∈ r₁.Skipped) ∧
      (fs.lookup (dir ++ ["skills", d.name]) = none →
        fs₁.lookup (dir ++ ["skills", d.name]) = some (.file d.content))) := by
  unfold installSkillsWithReport at h1
  rcases hst : fs.stat dir with e | v
  · simp only [hst] at h1
    exact absurd (congrArg (fun r => r.2.2) h1) (by simp)
  cases v with
  | none =>
    simp only [hst] at h1
    exact absurd (congrArg (fun r => r.2.2) h1) (by simp)
  | some n =>
    cases n with
    | file c =>
      simp only [hst] at h1
      exact absurd (congrArg (fun r => r.2.2) h1) (by simp)
    | dir =>
      obtain ⟨hfaDir, hlookDir⟩ := FS.stat_ok_elim hst
      have hP2fs : isFileNode (fs.lookup []) = false := root_not_file_of_stat_dir hst
      rcases hmk : fs.mkdirAll (dir ++ ["skills"]) with ⟨fsA, eA⟩
      cases eA with
      | some e =>
        simp only [hst, hmk] at h1
        exact absurd (congrArg (fun r => r.2.2) h1) (by simp)
      | none =>
        simp only [hst, hmk] at h1
        rcases hloop : installLoop (dir ++ ["skills"]) fsA [] docs with ⟨fsB, skB, eB⟩
        cases eB with
        | some e =>
          simp only [hloop] at h1
          exact absurd (congrArg (fun r => r.2.2) h1) (by simp)
        | none =>
          simp only [hloop] at h1
          have hfsB : fsB = fs₁ := congrArg (fun r => r.1) h1
          have hrB : (⟨sortStrings skB⟩ : SkillsInstallReport) = r₁ :=
            congrArg (fun r => r.2.1) h1
          subst hfsB
          have hsd1 : 1 ≤ (dir ++ ["skills"]).length := by simp
          have hmk2 : (fs.mkdirAll (dir ++ ["skills"])).2 = none := by rw [hmk]
          have hP1A : ∀ i, 1 ≤ i → i ≤ (dir ++ ["skills"]).length →
              fsA.lookup ((dir ++ ["skills"]).take i) = some .dir := by
            intro i hi1 hi2
            have := FS.mkdirAll_ok_dirs fs (dir ++ ["skills"]) hmk2 i hi1 hi2
            rw [hmk] at this
            exact this
          have hP2A : isFileNode (fsA.lookup []) = false := by
            have := FS.mkdirAll_lookup_nil fs (dir ++ ["skills"])
            rw [hmk] at this
            rw [this]
            exact hP2fs
          have hP1B : ∀ i, 1 ≤ i → i ≤ (dir ++ ["skills"]).length →
              fsB.lookup ((dir ++ ["skills"]).take i) = some .dir := by
            intro i hi1 hi2
            have hsh := installLoop_lookup_short (dir ++ ["skills"]) docs fsA []
              ((dir ++ ["skills"]).take i) (by rw [List.length_take]; omega)
            rw [hloop] at hsh
            rw [hsh]
            exact hP1A i hi1 hi2
          have hP2B : isFileNode (fsB.lookup []) = false := by
            have hsh := installLoop_lookup_short (dir ++ ["skills"]) docs fsA [] [] (by simp)
            rw [hloop] at hsh
            rw [hsh]
            exact hP2A
          have hallB : ∀ d ∈ docs, d.isDir = false →
              (fsB.lookup ((dir ++ ["skills"]) ++ [d.name])).isSome :=
            installLoop_all_present (dir ++ ["skills"]) docs fsA [] fsB skB hloop
          have hlookDirB : fsB.lookup dir = some .dir := by
            have hsh := installLoop_lookup_short (dir ++ ["skills"]) docs fsA [] dir (by simp)
            rw [hloop] at hsh
            rw [hsh]
            have hpre := FS.mkdirAll_lookup_isSome fs (dir ++ ["skills"]) dir
              (by rw [hlookDir]; rfl)
            rw [hmk] at hpre
            rw [hpre]
            exact hlookDir
          have hfaDirB : fsB.hasFileAncestor dir = false := by
            have hstep2 : fsB.hasFileAncestor dir = fsA.hasFileAncestor dir := by
              unfold FS.hasFileAncestor
              apply list_any_congr
              intro i hi
              rw [List.mem_range] at hi
              have hsh := installLoop_lookup_short (dir ++ ["skills"]) docs fsA []
                (dir.take i) (by
                  rw [List.length_take, List.length_append]
                  simp only [List.length_cons, List.length_nil]
                  omega)
              rw [hloop] at hsh
              rw [hsh]
            have hstep1 := FS.mkdirAll_hasFileAncestor fs (dir ++ ["skills"]) dir
            rw [hmk] at hstep1
            rw [hstep2, hstep1]
            exact hfaDir
          have hstatB : fsB.stat dir = .ok (some .dir) := by
            rw [FS.stat_of_noFileAncestor fsB dir hfaDirB, hlookDirB]
          have hmkB : fsB.mkdirAll (dir ++ ["skills"]) = (fsB, none) :=
            FS.mkdirAll_noop fsB (dir ++ ["skills"]) hP1B
          have hloopB : installLoop (dir ++ ["skills"]) fsB [] docs =
              (fsB, skillNames docs, none) := by
            have := installLoop_noop (dir ++ ["skills"]) hsd1 docs fsB [] hP1B hP2B hallB
            simpa using this
          constructor
          · unfold installSkillsWithReport
            simp only [hstatB, hmkB, hloopB]
          · intro d hd hdir
            have harr : dir ++ ["skills", d.name] = (dir ++ ["skills"]) ++ [d.name] := by
              simp
            constructor
            · intro n hn
              rw [harr] at hn ⊢
              have hnA : fsA.lookup ((dir ++ ["skills"]) ++ [d.name]) = some n := by
                have hpre := FS.mkdirAll_lookup_isSome fs (dir ++ ["skills"])
                  ((dir ++ ["skills"]) ++ [d.name]) (by rw [hn]; rfl)
                rw [hmk] at hpre
                rw [hpre]
                exact hn
              obtain ⟨hlk, hmem⟩ := installLoop_existing (dir ++ ["skills"]) docs fsA []
                fsB skB hloop d hd hdir n hnA
              refine ⟨hlk, ?_⟩
              rw [← hrB]
              exact (mem_sortStrings d.name skB).mpr hmem
            · intro hn
              rw [harr] at hn ⊢
              have hnA : fsA.lookup ((dir ++ ["skills"]) ++ [d.name]) = none := by
                have hpre := FS.mkdirAll_lookup_long fs (dir ++ ["skills"])
                  ((dir ++ ["skills"]) ++ [d.name]) (by simp)
                rw [hmk] at hpre
                rw [hpre]
                exact hn
              exact installLoop_absent (dir ++ ["skills"]) docs fsA [] fsB skB hloop
                hnodup d hd hdir hnA

/-- C4 witness: with registry `[a.md, b.md]` and a destination whose
`skills/a.md` was already edited, a first successful install followed by
a second install returns the full sorted name list and leaves the
filesystem identical. -/
theorem C4_idempotent_witness :
    (skillNames skillsDocs).Nodup ∧
    installSkillsWithReport skillsDocs
        ((installSkillsWithReport skillsDocs skillsFS0 ["d"]).1) ["d"] =
      ((installSkillsWithReport skillsDocs skillsFS0 ["d"]).1,
        ⟨sortStrings (skillNames skillsDocs)⟩, none) := by
  have h2 : (installSkillsWithReport skillsDocs skillsFS0 ["d"]).2.2 = none := by decide
  have h1 : installSkillsWithReport skillsDocs skillsFS0 ["d"] =
      ((installSkillsWithReport skillsDocs skillsFS0 ["d"]).1,
       (installSkillsWithReport skillsDocs skillsFS0 ["d"]).2.1, none) :=
    Prod.ext rfl (Prod.ext rfl h2)
  exact ⟨by decide,
    (C4_idempotent skillsDocs skillsFS0 ["d"] _ _ (by decide) h1).1⟩

end Seed
